import Mathlib

/-!
Shallow embedding of the kafer debugger core (Rust) in Lean 4, together with
theorems settling the frozen specification claims.

The embedding translates the source files `src/breakpoints.rs`, `src/memory.rs`,
`src/stack.rs`, `src/stack/stack_unwind.rs` and `kafer-core/src/processes.rs`.
Machine integers are modelled as `Nat` with explicit `% 2 ^ w` at the points
where the Rust code can wrap or truncate; Rust `Result` plus the possibility of
a panic is modelled by the three-valued `Res` type; Rust `Option` is `Option`.
External collaborators (the OS debug port, the filesystem, the pdb2 crate) are
modelled as explicit parameters, mirroring the interface boundary of the spec.
-/

namespace Kafer

/-- Error taxonomy of `src/error.rs` (`enum Error`). Payloads that the claims
never inspect (the Windows error record, the pdb2 error) are dropped. -/
inductive Err : Type where
  | WindowsError : Err
  | MemorySourceNotEnoughData : Err
  | UnknownModuleName : String → Err
  | Todo : Err
  | Pdb2 : Err
deriving DecidableEq, Repr

/-- Outcome of running a piece of Rust code: a normal value, an `Err` return,
or a panic (`unwrap`, `todo!`, out-of-bounds index). -/
inductive Res (α : Type) : Type where
  | ok : α → Res α
  | err : Err → Res α
  | panic : Res α
deriving DecidableEq, Repr

namespace Res

def bind {α β : Type} : Res α → (α → Res β) → Res β
  | ok a, f => f a
  | err e, _ => err e
  | panic, _ => panic

def map {α β : Type} (f : α → β) : Res α → Res β
  | ok a => ok (f a)
  | err e => err e
  | panic => panic

end Res

instance : Monad Res where
  pure := Res.ok
  bind := Res.bind
  map := Res.map

/-- Target memory: a pure byte-addressable partial map, the abstraction that
`ReadProcessMemory` provides to `ProcessMemoryReader` (`src/memory.rs`). -/
def Memory : Type := Nat → Option Nat

/-- `MemorySource::read_raw_memory`: read up to `len` bytes starting at `addr`,
stopping at the first unmapped byte. -/
def read_raw_memory (mem : Memory) (addr : Nat) : Nat → List Nat
  | 0 => []
  | len + 1 =>
    match mem addr with
    | none => []
    | some b => b :: read_raw_memory mem (addr + 1) len

/-- The body of the chunking loop of `MemorySource::read_memory_array`, with
explicit fuel (each iteration consumes at least one byte, so fuel equal to
the byte count always suffices). -/
def chunkElemsGo (size : Nat) : Nat → List Nat → List (List Nat)
  | 0, _ => []
  | fuel + 1, bytes =>
    if 0 < size ∧ size ≤ bytes.length then
      bytes.take size :: chunkElemsGo size fuel (bytes.drop size)
    else
      []

/-- The chunking loop of `MemorySource::read_memory_array`: cut the raw bytes
into consecutive records of `size` bytes, keeping only complete records. -/
def chunkElems (size : Nat) (bytes : List Nat) : List (List Nat) :=
  chunkElemsGo size bytes.length bytes

/-- Little-endian value of a byte list. -/
def leNum : List Nat → Nat
  | [] => 0
  | b :: rest => b + 256 * leNum rest

/-- `MemorySource::read_memory_array::<T>` for a record of `elemSize` bytes:
reads up to `maxCount` complete records (never fails for the process-memory
reader, which truncates at the first unmapped byte). -/
def read_memory_array (mem : Memory) (addr maxCount elemSize : Nat) : List (List Nat) :=
  chunkElems elemSize (read_raw_memory mem addr (maxCount * elemSize))

/-- `read_memory_array::<u8>` as numbers. -/
def readU8Array (mem : Memory) (addr maxCount : Nat) : List Nat :=
  (read_memory_array mem addr maxCount 1).map leNum

/-- `read_memory_array::<u16>` as numbers (little endian). -/
def readU16Array (mem : Memory) (addr maxCount : Nat) : List Nat :=
  (read_memory_array mem addr maxCount 2).map leNum

/-- `read_memory_array::<u32>` as numbers (little endian). -/
def readU32Array (mem : Memory) (addr maxCount : Nat) : List Nat :=
  (read_memory_array mem addr maxCount 4).map leNum

/-- `MemorySource::read_memory_full_array::<u16>`: fails with
`MemorySourceNotEnoughData` unless exactly `count` records were read. -/
def readU16FullArray (mem : Memory) (addr count : Nat) : Except Err (List Nat) :=
  let result := readU16Array mem addr count
  if result.length = count then .ok result else .error .MemorySourceNotEnoughData

/-- `MemorySource::read_memory_full_array::<u32>`. -/
def readU32FullArray (mem : Memory) (addr count : Nat) : Except Err (List Nat) :=
  let result := readU32Array mem addr count
  if result.length = count then .ok result else .error .MemorySourceNotEnoughData

/-- `MemorySource::read_memory_data::<T>` for a record of `size` bytes: reads
one record; `data[0]` panics when the record did not fit in mapped memory. -/
def readChunk (mem : Memory) (addr size : Nat) : Res (List Nat) :=
  match read_memory_array mem addr 1 size with
  | [] => .panic
  | c :: _ => .ok c

/-- `read_memory_data::<u64>`. -/
def readU64 (mem : Memory) (addr : Nat) : Res Nat :=
  (readChunk mem addr 8).map leNum

/-- Little-endian field of `len` bytes at byte offset `off` of a record. -/
def fieldLE (chunk : List Nat) (off len : Nat) : Nat :=
  leNum ((chunk.drop off).take len)

/-- The truncation step of `read_memory_string`: cut at the position of the
first zero code unit, if any. -/
def truncAtZero (l : List Nat) : List Nat :=
  match l.findIdx? (fun v => v == 0) with
  | some p => l.take p
  | none => l

/-- Continuation-byte test of UTF-8. -/
def isCont (b : Nat) : Prop := 0x80 ≤ b ∧ b ≤ 0xBF

instance (b : Nat) : Decidable (isCont b) := by
  unfold isCont
  infer_instance

/-- Admissible second byte of a three-byte UTF-8 sequence led by `b`
(excludes overlong encodings and surrogates, per RFC 3629 as enforced by
Rust `String::from_utf8`). -/
def utf8ThreeOk (b c1 : Nat) : Prop :=
  (b = 0xE0 ∧ 0xA0 ≤ c1 ∧ c1 ≤ 0xBF) ∨
  (b = 0xED ∧ 0x80 ≤ c1 ∧ c1 ≤ 0x9F) ∨
  (b ≠ 0xE0 ∧ b ≠ 0xED ∧ isCont c1)

instance (b c1 : Nat) : Decidable (utf8ThreeOk b c1) := by
  unfold utf8ThreeOk
  infer_instance

/-- Admissible second byte of a four-byte UTF-8 sequence led by `b`
(excludes overlong encodings and values above U+10FFFF). -/
def utf8FourOk (b c1 : Nat) : Prop :=
  (b = 0xF0 ∧ 0x90 ≤ c1 ∧ c1 ≤ 0xBF) ∨
  (b = 0xF4 ∧ 0x80 ≤ c1 ∧ c1 ≤ 0x8F) ∨
  ((b = 0xF1 ∨ b = 0xF2 ∨ b = 0xF3) ∧ isCont c1)

instance (b c1 : Nat) : Decidable (utf8FourOk b c1) := by
  unfold utf8FourOk
  infer_instance

/-- UTF-8 decoding with Rust's validity rules: `some` list of scalar values on
valid input, `none` on invalid input (what `String::from_utf8` rejects). -/
def utf8Decode : List Nat → Option (List Nat)
  | [] => some []
  | b :: rest =>
    if b < 0x80 then
      (utf8Decode rest).map (b :: ·)
    else if b < 0xC2 then
      none
    else if b ≤ 0xDF then
      match rest with
      | c1 :: r =>
        if isCont c1 then
          (utf8Decode r).map (((b - 0xC0) * 0x40 + (c1 - 0x80)) :: ·)
        else
          none
      | [] => none
    else if b ≤ 0xEF then
      match rest with
      | c1 :: c2 :: r =>
        if utf8ThreeOk b c1 ∧ isCont c2 then
          (utf8Decode r).map
            (((b - 0xE0) * 0x1000 + (c1 - 0x80) * 0x40 + (c2 - 0x80)) :: ·)
        else
          none
      | _ => none
    else if b ≤ 0xF4 then
      match rest with
      | c1 :: c2 :: c3 :: r =>
        if utf8FourOk b c1 ∧ isCont c2 ∧ isCont c3 then
          (utf8Decode r).map
            (((b - 0xF0) * 0x40000 + (c1 - 0x80) * 0x1000 +
              (c2 - 0x80) * 0x40 + (c3 - 0x80)) :: ·)
        else
          none
      | _ => none
    else
      none

/-- UTF-16 decoding with lossy replacement of unpaired surrogates by U+FFFD,
as `String::from_utf16_lossy` does. -/
def utf16Lossy : List Nat → List Nat
  | [] => []
  | [u] => if u < 0xD800 ∨ 0xE000 ≤ u then [u] else [0xFFFD]
  | u :: u2 :: rest =>
    if u < 0xD800 ∨ 0xE000 ≤ u then
      u :: utf16Lossy (u2 :: rest)
    else if u < 0xDC00 ∧ 0xDC00 ≤ u2 ∧ u2 < 0xE000 then
      (0x10000 + (u - 0xD800) * 0x400 + (u2 - 0xDC00)) :: utf16Lossy rest
    else
      0xFFFD :: utf16Lossy (u2 :: rest)

/-- A list of Unicode scalar values as a Lean string. -/
def codepointsToString (l : List Nat) : String :=
  String.mk (l.map Char.ofNat)

/-- `MemorySource::read_memory_string`: reads up to `maxCount` code units
(8-bit or 16-bit LE), truncates at the first zero unit, then decodes.  The
wide path uses `String::from_utf16_lossy`; the narrow path calls
`String::from_utf8(bytes).unwrap()`, which panics on invalid UTF-8. -/
def read_memory_string (mem : Memory) (addr maxCount : Nat) (isWide : Bool) : Res String :=
  if isWide then
    let words := truncAtZero (readU16Array mem addr maxCount)
    .ok (codepointsToString (utf16Lossy words))
  else
    let bytes := truncAtZero (readU8Array mem addr maxCount)
    match utf8Decode bytes with
    | some cps => .ok (codepointsToString cps)
    | none => .panic

/-- The projection of `AlignedContext` (the Windows `CONTEXT` record) that the
embedded code touches: general-purpose registers, `RIP`, `EFlags` and the
debug registers. All values are 64-bit, modelled as `Nat`. -/
structure AlignedContext : Type where
  Rax : Nat := 0
  Rcx : Nat := 0
  Rdx : Nat := 0
  Rbx : Nat := 0
  Rsp : Nat := 0
  Rbp : Nat := 0
  Rsi : Nat := 0
  Rdi : Nat := 0
  R8 : Nat := 0
  R9 : Nat := 0
  R10 : Nat := 0
  R11 : Nat := 0
  R12 : Nat := 0
  R13 : Nat := 0
  R14 : Nat := 0
  R15 : Nat := 0
  Rip : Nat := 0
  EFlags : Nat := 0
  Dr0 : Nat := 0
  Dr1 : Nat := 0
  Dr2 : Nat := 0
  Dr3 : Nat := 0
  Dr6 : Nat := 0
  Dr7 : Nat := 0
deriving DecidableEq, Repr

/-- One hardware breakpoint (`src/breakpoints.rs`): an address and the slot id
it was created in. -/
structure Breakpoint : Type where
  addr : Nat
  id : Nat
deriving DecidableEq, Repr

/-- The 4-slot hardware breakpoint table (`struct BreakpointManager`). The
source uses `[Option<Breakpoint>; 4]`; the list always has length 4 in every
state reachable from `new`. -/
structure BreakpointManager : Type where
  breakpoints : List (Option Breakpoint)
deriving DecidableEq, Repr

/-- `BreakpointManager::new`. -/
def BreakpointManager.new : BreakpointManager :=
  ⟨[none, none, none, none]⟩

/-- The iteration of `add_breakpoint`: walk the slots carrying the running
index, fill the first empty one. Returns the chosen id and the new slots. -/
def addBreakpointAux (addr : Nat) (idx : Nat) :
    List (Option Breakpoint) → Option Nat × List (Option Breakpoint)
  | [] => (none, [])
  | none :: rest => (some idx, some ⟨addr, idx⟩ :: rest)
  | some bp :: rest =>
    ((addBreakpointAux addr (idx + 1) rest).1,
      some bp :: (addBreakpointAux addr (idx + 1) rest).2)

/-- `BreakpointManager::add_breakpoint`: place in the lowest empty slot and
return its index, or return nothing when all slots are in use. -/
def BreakpointManager.add_breakpoint (bm : BreakpointManager) (addr : Nat) :
    Option Nat × BreakpointManager :=
  let (r, l) := addBreakpointAux addr 0 bm.breakpoints
  (r, ⟨l⟩)

/-- `BreakpointManager::list_breakpoints`: the populated slots in order. -/
def BreakpointManager.list_breakpoints (bm : BreakpointManager) : List Breakpoint :=
  bm.breakpoints.filterMap id

/-- `BreakpointManager::clear_breakpoint`: `self.breakpoints[id] = None`.
Direct array indexing panics (`none` here) when `id` is out of bounds. -/
def BreakpointManager.clear_breakpoint (bm : BreakpointManager) (id : Nat) :
    Option BreakpointManager :=
  if id < bm.breakpoints.length then
    some ⟨bm.breakpoints.set id none⟩
  else
    none

/-- `BreakpointManager::was_breakpoint_hit`: for each slot index in order the
source tests `(thread_context.Dr6 << idx) != 0` (a 64-bit shift, so bits
shifted past bit 63 are discarded) and returns the first index passing it. -/
def BreakpointManager.was_breakpoint_hit (bm : BreakpointManager)
    (thread_context : AlignedContext) : Option Nat :=
  (List.range bm.breakpoints.length).find?
    (fun idx => ((thread_context.Dr6 <<< idx) % 2 ^ 64) != 0)

/-- Slot-id invariant of the data model: a populated slot stores its own
index as the breakpoint id. Every state reachable from `new` satisfies it. -/
def BreakpointManager.WF (bm : BreakpointManager) : Prop :=
  ∀ i bp, bm.breakpoints.get? i = some (some bp) → bp.id = i

/- Helper lemmas about the breakpoint table. -/

theorem addBreakpointAux_of_full (addr : Nat) :
    ∀ (l : List (Option Breakpoint)) (idx : Nat),
      (∀ o ∈ l, o.isSome) → addBreakpointAux addr idx l = (none, l) := by
  intro l
  induction l with
  | nil => intro idx _; rfl
  | cons o rest ih =>
    intro idx hfull
    cases o with
    | none => simpa using hfull none (List.mem_cons_self _ _)
    | some bp =>
      have hrest : ∀ o ∈ rest, o.isSome := fun o ho => hfull o (List.mem_cons_of_mem _ ho)
      simp [addBreakpointAux, ih (idx + 1) hrest]

theorem addBreakpointAux_of_first_none (addr : Nat) :
    ∀ (l : List (Option Breakpoint)) (i idx : Nat),
      l.get? i = some none →
      (∀ j < i, ∃ b, l.get? j = some (some b)) →
      addBreakpointAux addr idx l = (some (idx + i), l.set i (some ⟨addr, idx + i⟩)) := by
  intro l
  induction l with
  | nil => intro i idx hi _; simp at hi
  | cons o rest ih =>
    intro i idx hi hj
    cases i with
    | zero =>
      have : o = none := by simpa using hi
      subst this
      simp [addBreakpointAux]
    | succ i =>
      obtain ⟨b, hb⟩ := hj 0 (Nat.succ_pos _)
      have : o = some b := by simpa using hb
      subst this
      have hrest := ih i (idx + 1) (by simpa using hi)
        (fun j hji => by simpa using hj (j + 1) (Nat.succ_lt_succ hji))
      have harith : idx + 1 + i = idx + (i + 1) := by omega
      rw [harith] at hrest
      simp [addBreakpointAux, hrest, List.set_cons_succ]

theorem addBreakpointAux_inv (addr : Nat) :
    ∀ (l : List (Option Breakpoint)) (idx : Nat) (r : Option Nat)
      (l' : List (Option Breakpoint)),
      addBreakpointAux addr idx l = (r, l') →
      (r = none ∧ l' = l) ∨
      (∃ i, r = some (idx + i) ∧ l.get? i = some none ∧
        l' = l.set i (some ⟨addr, idx + i⟩)) := by
  intro l
  induction l with
  | nil =>
    intro idx r l' h
    injection h with h1 h2
    exact Or.inl ⟨h1.symm, h2.symm⟩
  | cons o rest ih =>
    intro idx r l' h
    cases o with
    | none =>
      injection h with h1 h2
      refine Or.inr ⟨0, ?_, by simp, ?_⟩
      · simpa using h1.symm
      · simpa using h2.symm
    | some bp =>
      simp only [addBreakpointAux] at h
      injection h with h1 h2
      rcases ih (idx + 1) (addBreakpointAux addr (idx + 1) rest).1
        (addBreakpointAux addr (idx + 1) rest).2 rfl with hc | ⟨i, hr, hg, hs⟩
      · exact Or.inl ⟨h1 ▸ hc.1, by rw [← h2, hc.2]⟩
      · refine Or.inr ⟨i + 1, ?_, by simpa using hg, ?_⟩
        · rw [← h1, hr]
          congr 1
          omega
        · rw [← h2, hs]
          simp only [List.set_cons_succ]
          have harith : idx + 1 + i = idx + (i + 1) := by omega
          rw [harith]

theorem list_set_get?_self :
    ∀ (l : List (Option Breakpoint)) (i : Nat) (a : Option Breakpoint),
      l.get? i = some a → l.set i a = l := by
  intro l
  induction l with
  | nil => intro i a h; simp at h
  | cons o rest ih =>
    intro i a h
    cases i with
    | zero =>
      have : o = a := by simpa using h
      subst this
      simp
    | succ i =>
      simp only [List.set_cons_succ]
      rw [ih i a (by simpa using h)]

/-- C1: the claim states that `was_breakpoint_hit` tests the four low status
bits of DR6 and returns the first set one (slot 1 for `DR6 = 2`, nothing when
no low bit is set, as for `DR6 = 0x4000`).  The code instead tests
`(Dr6 << idx) != 0`, so any non-zero DR6 — whatever bit is set — yields slot
0: with `DR6 = 2` (only low bit 1 set) it returns slot 0, and with
`DR6 = 0x4000` (no low bit set) it also returns slot 0 instead of nothing. -/
theorem was_breakpoint_hit_shift_decode_bug :
    BreakpointManager.new.was_breakpoint_hit { Dr6 := 2 } = some 0 ∧
    Nat.testBit 2 0 = false ∧
    Nat.testBit 2 1 = true ∧
    BreakpointManager.new.was_breakpoint_hit { Dr6 := 0x4000 } = some 0 ∧
    (∀ i < 4, Nat.testBit 0x4000 i = false) := by
  refine ⟨by decide, by decide, by decide, by decide, by decide⟩

/-- C5: `add_breakpoint` places the new breakpoint in the lowest-indexed
empty slot of the 4-slot table and returns that index; when all 4 slots are
occupied it returns nothing and leaves the table unchanged. -/
theorem add_breakpoint_lowest_slot (bm : BreakpointManager) (addr : Nat)
    (hlen : bm.breakpoints.length = 4) :
    ((∀ o ∈ bm.breakpoints, o.isSome) → bm.add_breakpoint addr = (none, bm)) ∧
    (∀ i, bm.breakpoints.get? i = some none →
      (∀ j < i, ∃ b, bm.breakpoints.get? j = some (some b)) →
      bm.add_breakpoint addr = (some i, ⟨bm.breakpoints.set i (some ⟨addr, i⟩)⟩)) := by
  constructor
  · intro hfull
    simp [BreakpointManager.add_breakpoint, addBreakpointAux_of_full addr _ 0 hfull]
  · intro i hi hj
    have h := addBreakpointAux_of_first_none addr bm.breakpoints i 0 hi hj
    simp only [Nat.zero_add] at h
    simp [BreakpointManager.add_breakpoint, h]

/-- Full table used by the C5 witness. -/
def bmFull : BreakpointManager :=
  ⟨[some ⟨16, 0⟩, some ⟨32, 1⟩, some ⟨48, 2⟩, some ⟨64, 3⟩]⟩

theorem add_breakpoint_lowest_slot_witness :
    BreakpointManager.new.add_breakpoint 5 =
      (some 0, ⟨[some ⟨5, 0⟩, none, none, none]⟩) ∧
    bmFull.add_breakpoint 9 = (none, bmFull) := by
  constructor
  · have h := (add_breakpoint_lowest_slot BreakpointManager.new 5 (by decide)).2 0
      (by decide) (by intro j hj; omega)
    simpa using h
  · exact (add_breakpoint_lowest_slot bmFull 9 (by decide)).1 (by decide)

/-- C6: with the slot-id invariant of the data model, `list_breakpoints`
contains a breakpoint with slot-id `i` iff slot `i` is populated; an
`add_breakpoint` that returns an id, followed by `clear_breakpoint` of that
id, restores the exact prior state (hence the prior `list_breakpoints`
output); and both operations preserve the invariant and never change the
other slots (so the slot-ids of the other populated slots persist). -/
theorem breakpoint_slot_identity (bm : BreakpointManager) (hwf : bm.WF) :
    (∀ i, (∃ bp ∈ bm.list_breakpoints, bp.id = i) ↔
      ∃ bp, bm.breakpoints.get? i = some (some bp)) ∧
    (∀ addr bid bm', bm.add_breakpoint addr = (some bid, bm') →
      bm'.clear_breakpoint bid = some bm ∧ bm'.WF ∧
      ∀ j, j ≠ bid → bm'.breakpoints.get? j = bm.breakpoints.get? j) ∧
    (∀ bid bm', bm.clear_breakpoint bid = some bm' →
      bm'.WF ∧ ∀ j, j ≠ bid → bm'.breakpoints.get? j = bm.breakpoints.get? j) := by
  refine ⟨?_, ?_, ?_⟩
  · intro i
    constructor
    · rintro ⟨bp, hmem, hid⟩
      rw [BreakpointManager.list_breakpoints, List.mem_filterMap] at hmem
      obtain ⟨o, ho, hoeq⟩ := hmem
      have : o = some bp := hoeq
      subst this
      obtain ⟨n, hn⟩ := List.mem_iff_get?.mp ho
      have hbn := hwf n bp hn
      have hni : n = i := by rw [← hbn, hid]
      rw [hni] at hn
      exact ⟨bp, hn⟩
    · rintro ⟨bp, hbp⟩
      refine ⟨bp, ?_, hwf i bp hbp⟩
      rw [BreakpointManager.list_breakpoints, List.mem_filterMap]
      exact ⟨some bp, List.mem_iff_get?.mpr ⟨i, hbp⟩, rfl⟩
  · intro addr bid bm' hadd
    have h0 : addBreakpointAux addr 0 bm.breakpoints =
        ((bm.add_breakpoint addr).1, (bm.add_breakpoint addr).2.breakpoints) := by
      simp [BreakpointManager.add_breakpoint]
    rw [hadd] at h0
    rcases addBreakpointAux_inv addr bm.breakpoints 0 (some bid) bm'.breakpoints h0
      with ⟨hcontra, _⟩ | ⟨i, hr, hget, hset⟩
    · exact absurd hcontra (by simp)
    have hid : bid = i := by simpa using hr
    subst hid
    simp only [Nat.zero_add] at hset
    have hlt : bid < bm.breakpoints.length := (List.get?_eq_some.mp hget).1
    refine ⟨?_, ?_, ?_⟩
    · rw [BreakpointManager.clear_breakpoint]
      have hlen' : bm'.breakpoints.length = bm.breakpoints.length := by
        rw [hset]; simp
      rw [if_pos (hlen' ▸ hlt), hset, List.set_set, list_set_get?_self _ _ _ hget]
    · intro k bp hk
      rw [hset] at hk
      by_cases hki : k = bid
      · subst hki
        rw [List.get?_set_eq_of_lt (some (⟨addr, k⟩ : Breakpoint)) hlt] at hk
        cases hk
        rfl
      · exact hwf k bp (by rwa [List.get?_set_ne _ _ (Ne.symm hki)] at hk)
    · intro j hj
      rw [hset, List.get?_set_ne _ _ (Ne.symm hj)]
  · intro bid bm' hclear
    rw [BreakpointManager.clear_breakpoint] at hclear
    by_cases hlt : bid < bm.breakpoints.length
    · rw [if_pos hlt] at hclear
      cases hclear
      refine ⟨?_, ?_⟩
      · intro k bp hk
        by_cases hki : k = bid
        · subst hki
          rw [List.get?_set_eq_of_lt (none : Option Breakpoint) hlt] at hk
          cases hk
        · exact hwf k bp (by rwa [List.get?_set_ne _ _ (Ne.symm hki)] at hk)
      · intro j hj
        exact List.get?_set_ne _ _ (Ne.symm hj)
    · rw [if_neg hlt] at hclear
      cases hclear

theorem breakpoint_slot_identity_witness :
    (⟨[some ⟨3, 0⟩, none, none, none]⟩ : BreakpointManager).clear_breakpoint 0 =
      some BreakpointManager.new := by
  have hwf : BreakpointManager.new.WF := by
    intro i bp h
    rcases i with _ | _ | _ | _ | i <;> simp [BreakpointManager.new] at h
  exact ((breakpoint_slot_identity BreakpointManager.new hwf).2.1 3 0
    ⟨[some ⟨3, 0⟩, none, none, none]⟩ (by decide)).1

/-- C10: `clear_breakpoint` indexes the 4-element slot array directly: for
every id greater than 3 the call panics (out-of-bounds index), and for id in
0..4 it is total, emptying that slot. -/
theorem clear_breakpoint_out_of_bounds (bm : BreakpointManager) (id : Nat)
    (hlen : bm.breakpoints.length = 4) :
    (3 < id → bm.clear_breakpoint id = none) ∧
    (id < 4 → bm.clear_breakpoint id = some ⟨bm.breakpoints.set id none⟩) := by
  constructor
  · intro h
    rw [BreakpointManager.clear_breakpoint, if_neg (by omega)]
  · intro h
    rw [BreakpointManager.clear_breakpoint, if_pos (by omega)]

/-- Concrete memory holding `bytes` starting at `start`, unmapped elsewhere.
Used by witnesses and counterexamples. -/
def memBlob (start : Nat) (bytes : List Nat) : Memory := fun a =>
  if start ≤ a ∧ a < start + bytes.length then bytes.get? (a - start) else none

theorem truncAtZero_eq_takeWhile :
    ∀ l : List Nat, truncAtZero l = l.takeWhile (fun v => v != 0) := by
  intro l
  induction l with
  | nil => rfl
  | cons b rest ih =>
    by_cases hb : b = 0
    · subst hb
      simp [truncAtZero, List.findIdx?_cons, List.takeWhile_cons]
    · rw [truncAtZero, List.findIdx?_cons, if_neg (by simpa using hb)]
      rw [truncAtZero] at ih
      rw [List.takeWhile_cons, if_pos (by simpa using hb)]
      cases hfind : List.findIdx? (fun v => v == 0) rest with
      | none =>
        rw [hfind] at ih
        simpa [hfind] using congrArg (List.cons b) ih
      | some p =>
        rw [hfind] at ih
        simpa [hfind] using congrArg (List.cons b) ih

/-- C8 (amended): `read_memory_string` reads up to `maxCount` code units,
truncates at the first zero unit, and decodes; in wide mode invalid UTF-16 is
lossily replaced (the call always succeeds), and in narrow mode input that is
not valid UTF-8 causes a panic — `String::from_utf8(bytes).unwrap()` — rather
than an error result. -/
theorem read_memory_string_decode (mem : Memory) (addr maxCount : Nat) :
    read_memory_string mem addr maxCount true =
      .ok (codepointsToString (utf16Lossy
        ((readU16Array mem addr maxCount).takeWhile (fun v => v != 0)))) ∧
    (∀ cps,
      utf8Decode ((readU8Array mem addr maxCount).takeWhile (fun v => v != 0)) =
        some cps →
      read_memory_string mem addr maxCount false =
        .ok (codepointsToString cps)) ∧
    (utf8Decode ((readU8Array mem addr maxCount).takeWhile (fun v => v != 0)) =
        none →
      read_memory_string mem addr maxCount false = .panic) := by
  refine ⟨?_, ?_, ?_⟩
  · simp [read_memory_string, truncAtZero_eq_takeWhile]
  · intro cps h
    simp [read_memory_string, truncAtZero_eq_takeWhile, h]
  · intro h
    simp [read_memory_string, truncAtZero_eq_takeWhile, h]

theorem read_memory_string_decode_witness :
    read_memory_string (memBlob 0 [0x41, 0x00, 0x00, 0xD8, 0x42, 0x00]) 0 3 true =
      .ok (codepointsToString [0x41, 0xFFFD, 0x42]) ∧
    read_memory_string (memBlob 0 [0xC3]) 0 1 false = .panic := by
  constructor
  · rw [(read_memory_string_decode (memBlob 0 [0x41, 0x00, 0x00, 0xD8, 0x42, 0x00])
      0 3).1]
    decide
  · exact (read_memory_string_decode (memBlob 0 [0xC3]) 0 1).2.2 (by decide)

/-- C8 counterexample: at the one-byte memory `[0xFF]` (invalid UTF-8) the
narrow read panics; it does not return an error result to the caller, as the
claim states. -/
theorem read_memory_string_invalid_utf8_panics :
    read_memory_string (memBlob 0 [0xFF]) 0 1 false = .panic ∧
    ∀ e : Err, read_memory_string (memBlob 0 [0xFF]) 0 1 false ≠ .err e := by
  constructor
  · decide
  · intro e h
    rw [show read_memory_string (memBlob 0 [0xFF]) 0 1 false = .panic by decide] at h
    exact Res.noConfusion h

theorem clear_breakpoint_out_of_bounds_witness :
    BreakpointManager.new.clear_breakpoint 7 = none ∧
    BreakpointManager.new.clear_breakpoint 2 = some BreakpointManager.new := by
  constructor
  · exact (clear_breakpoint_out_of_bounds BreakpointManager.new 7 (by decide)).1
      (by decide)
  · have h := (clear_breakpoint_out_of_bounds BreakpointManager.new 2 (by decide)).2
      (by decide)
    simpa [BreakpointManager.new] using h

/-! ## Stack unwinding: `src/stack/stack_unwind.rs` -/

/-- Logical unwind operations (`enum UnwindOp`); registers are the 0–15
encodings of `enum Register` (RAX, RCX, RDX, RBX, RSP, RBP, RSI, RDI,
R8–R15). -/
inductive UnwindOp : Type where
  | PushNonVolatile : Nat → UnwindOp
  | Alloc : Nat → UnwindOp
  | SetFpreg : Nat → Nat → UnwindOp
  | SaveNonVolatile : Nat → Nat → UnwindOp
  | SaveXmm128 : Nat → Nat → UnwindOp
  | PushMachFrame : Bool → UnwindOp
deriving DecidableEq, Repr

/-- `struct UnwindCode`. -/
structure UnwindCode : Type where
  code_offset : Nat
  op : UnwindOp
deriving DecidableEq, Repr

/-- `enum UnwindCodeParseError`. -/
inductive UnwindCodeParseError : Type where
  | IncompleteOp : Nat → UnwindCodeParseError
  | UnknownOp : Nat → UnwindCodeParseError
  | InvalidRegister : Nat → UnwindCodeParseError
deriving DecidableEq, Repr

/-- Decode directive for one scan position of `parse_unwind_ops`: the op to
push together with the slots remaining after the consumed ones, or a parse
error. -/
inductive StepRes : Type where
  | push : UnwindCode → List Nat → StepRes
  | fail : UnwindCodeParseError → StepRes
deriving DecidableEq, Repr

/-- One iteration of the `parse_unwind_ops` loop at slot `s` with the
remaining slots `rest`: split `s` into (code_offset: low 8 bits, op_code:
next 4 bits, op_info: high 4 bits) and dispatch exactly as the source match
does, consuming the 1 or 2 extra slots of variable-length ops (the source's
`i + 1 >= code_slots.len()` / `i + 2 >= code_slots.len()` bounds checks are
the list patterns on `rest`). `Register::try_from`, which fails exactly on
encodings above 15, is inlined as the `< 16` tests. -/
def decodeStep (s : Nat) (rest : List Nat) (frame_register frame_offset : Nat) :
    StepRes :=
  if s / 256 % 16 = 0 then
    if s / 4096 % 16 < 16 then
      .push ⟨s % 256, .PushNonVolatile (s / 4096 % 16)⟩ rest
    else
      .fail (.InvalidRegister (s / 4096 % 16))
  else if s / 256 % 16 = 1 ∧ s / 4096 % 16 = 0 then
    match rest with
    | [] => .fail (.IncompleteOp 1)
    | s1 :: rest2 => .push ⟨s % 256, .Alloc (s1 * 8)⟩ rest2
  else if s / 256 % 16 = 1 ∧ s / 4096 % 16 = 1 then
    match rest with
    | s1 :: s2 :: rest3 => .push ⟨s % 256, .Alloc (s1 + s2 * 65536)⟩ rest3
    | _ => .fail (.IncompleteOp 1)
  else if s / 256 % 16 = 2 then
    .push ⟨s % 256, .Alloc (s / 4096 % 16 * 8 + 8)⟩ rest
  else if s / 256 % 16 = 3 then
    if frame_register < 16 then
      .push ⟨s % 256, .SetFpreg frame_register frame_offset⟩ rest
    else
      .fail (.InvalidRegister frame_register)
  else if s / 256 % 16 = 4 then
    match rest with
    | [] => .fail (.IncompleteOp 4)
    | s1 :: rest2 =>
      if s / 4096 % 16 < 16 then
        .push ⟨s % 256, .SaveNonVolatile (s / 4096 % 16) s1⟩ rest2
      else
        .fail (.InvalidRegister (s / 4096 % 16))
  else if s / 256 % 16 = 5 then
    match rest with
    | s1 :: s2 :: rest3 =>
      if s / 4096 % 16 < 16 then
        .push ⟨s % 256, .SaveNonVolatile (s / 4096 % 16) (s1 + s2 * 65536)⟩ rest3
      else
        .fail (.InvalidRegister (s / 4096 % 16))
    | _ => .fail (.IncompleteOp 5)
  else if s / 256 % 16 = 8 then
    match rest with
    | [] => .fail (.IncompleteOp 8)
    | s1 :: rest2 =>
      if s / 4096 % 16 < 16 then
        .push ⟨s % 256, .SaveXmm128 (s / 4096 % 16) s1⟩ rest2
      else
        .fail (.InvalidRegister (s / 4096 % 16))
  else if s / 256 % 16 = 9 then
    match rest with
    | s1 :: s2 :: rest3 =>
      if s / 4096 % 16 < 16 then
        .push ⟨s % 256, .SaveXmm128 (s / 4096 % 16) (s1 + s2 * 65536)⟩ rest3
      else
        .fail (.InvalidRegister (s / 4096 % 16))
    | _ => .fail (.IncompleteOp 9)
  else
    .fail (.UnknownOp (s / 256 % 16))

/-- The `parse_unwind_ops` while loop, with explicit fuel. Every iteration
consumes at least the leading slot, so fuel equal to the slot count always
suffices (`parseGo_fuel` below proves the fuel is irrelevant beyond the
length). -/
def parseGo (frame_register frame_offset : Nat) :
    Nat → List Nat → Except UnwindCodeParseError (List UnwindCode)
  | _, [] => .ok []
  | 0, _ :: _ => .ok []
  | fuel + 1, s :: rest =>
    match decodeStep s rest frame_register frame_offset with
    | .fail e => .error e
    | .push uc rest2 =>
      (parseGo frame_register frame_offset fuel rest2).map (uc :: ·)

/-- `parse_unwind_ops` of `src/stack/stack_unwind.rs`. -/
def parse_unwind_ops (code_slots : List Nat) (frame_register frame_offset : Nat) :
    Except UnwindCodeParseError (List UnwindCode) :=
  parseGo frame_register frame_offset code_slots.length code_slots

instance exceptDecEq {e a : Type} [DecidableEq e] [DecidableEq a] :
    DecidableEq (Except e a)
  | .ok x, .ok y =>
    if h : x = y then .isTrue (by rw [h]) else .isFalse (by intro he; cases he; exact h rfl)
  | .error x, .error y =>
    if h : x = y then .isTrue (by rw [h]) else .isFalse (by intro he; cases he; exact h rfl)
  | .ok x, .error y => .isFalse (by intro he; cases he)
  | .error x, .ok y => .isFalse (by intro he; cases he)

theorem except_map_eq_error {a b : Type} (f : a → b) (x : Except UnwindCodeParseError a)
    (e : UnwindCodeParseError) (h : x.map f = .error e) : x = .error e := by
  cases x with
  | error e2 =>
    have hred : (Except.error e2 : Except UnwindCodeParseError a).map f =
        (.error e2 : Except UnwindCodeParseError b) := rfl
    rw [hred] at h
    injection h with h2
    rw [h2]
  | ok v => exact Except.noConfusion h

set_option maxHeartbeats 1000000 in
/-- Case analysis of `decodeStep`: a pushed directive never lengthens the
remaining slot list, and a failure is classified (`IncompleteOp` carries a
variable-length op code, `UnknownOp` an unrecognized nibble, and
`InvalidRegister` an encoding of at least 16). -/
theorem decodeStep_sound (s : Nat) (rest : List Nat) (fr fo : Nat) :
    (∀ uc rest2, decodeStep s rest fr fo = .push uc rest2 →
      rest2.length ≤ rest.length) ∧
    (∀ e, decodeStep s rest fr fo = .fail e →
      (∀ k, e = .IncompleteOp k → k = 1 ∨ k = 4 ∨ k = 5 ∨ k = 8 ∨ k = 9) ∧
      (∀ k, e = .UnknownOp k →
        k ≠ 0 ∧ k ≠ 2 ∧ k ≠ 3 ∧ k ≠ 4 ∧ k ≠ 5 ∧ k ≠ 8 ∧ k ≠ 9 ∧ k < 16) ∧
      (∀ r, e = .InvalidRegister r → 16 ≤ r)) := by
  have hinfo : s / 4096 % 16 < 16 := Nat.mod_lt _ (by norm_num)
  unfold decodeStep
  by_cases h0 : s / 256 % 16 = 0
  · rw [if_pos h0, if_pos hinfo]
    refine ⟨?_, ?_⟩
    · intro uc rest2 hh
      injection hh with h1 h2
      subst h2
      exact Nat.le_refl _
    · intro e hh
      exact StepRes.noConfusion hh
  rw [if_neg h0]
  by_cases h10 : s / 256 % 16 = 1 ∧ s / 4096 % 16 = 0
  · rw [if_pos h10]
    cases rest with
    | nil =>
      refine ⟨fun uc rest2 hh => StepRes.noConfusion hh, ?_⟩
      intro e hh
      injection hh with he
      subst he
      exact ⟨fun k hk => by injection hk with hk; omega, by simp, by simp⟩
    | cons s1 r2 =>
      refine ⟨?_, fun e hh => StepRes.noConfusion hh⟩
      intro uc rest2 hh
      injection hh with h1 h2
      subst h2
      simp
  rw [if_neg h10]
  by_cases h11 : s / 256 % 16 = 1 ∧ s / 4096 % 16 = 1
  · rw [if_pos h11]
    match rest with
    | [] =>
      refine ⟨fun uc rest2 hh => StepRes.noConfusion hh, ?_⟩
      intro e hh
      injection hh with he
      subst he
      exact ⟨fun k hk => by injection hk with hk; omega, by simp, by simp⟩
    | [s1] =>
      refine ⟨fun uc rest2 hh => StepRes.noConfusion hh, ?_⟩
      intro e hh
      injection hh with he
      subst he
      exact ⟨fun k hk => by injection hk with hk; omega, by simp, by simp⟩
    | s1 :: s2 :: r3 =>
      refine ⟨?_, fun e hh => StepRes.noConfusion hh⟩
      intro uc rest2 hh
      injection hh with h1 h2
      subst h2
      simp
      omega
  rw [if_neg h11]
  by_cases h2 : s / 256 % 16 = 2
  · rw [if_pos h2]
    refine ⟨?_, fun e hh => StepRes.noConfusion hh⟩
    intro uc rest2 hh
    injection hh with h1 h2
    subst h2
    exact Nat.le_refl _
  rw [if_neg h2]
  by_cases h3 : s / 256 % 16 = 3
  · rw [if_pos h3]
    by_cases hfr : fr < 16
    · rw [if_pos hfr]
      refine ⟨?_, fun e hh => StepRes.noConfusion hh⟩
      intro uc rest2 hh
      injection hh with h1 h2
      subst h2
      exact Nat.le_refl _
    · rw [if_neg hfr]
      refine ⟨fun uc rest2 hh => StepRes.noConfusion hh, ?_⟩
      intro e hh
      injection hh with he
      subst he
      refine ⟨by simp, by simp, ?_⟩
      intro r hr
      injection hr with hr
      omega
  rw [if_neg h3]
  by_cases h4 : s / 256 % 16 = 4
  · rw [if_pos h4]
    cases rest with
    | nil =>
      refine ⟨fun uc rest2 hh => StepRes.noConfusion hh, ?_⟩
      intro e hh
      injection hh with he
      subst he
      exact ⟨fun k hk => by injection hk with hk; omega, by simp, by simp⟩
    | cons s1 r2 =>
      simp only []
      rw [if_pos hinfo]
      refine ⟨?_, fun e hh => StepRes.noConfusion hh⟩
      intro uc rest2 hh
      injection hh with h1 h2
      subst h2
      simp
  rw [if_neg h4]
  by_cases h5 : s / 256 % 16 = 5
  · rw [if_pos h5]
    match rest with
    | [] =>
      refine ⟨fun uc rest2 hh => StepRes.noConfusion hh, ?_⟩
      intro e hh
      injection hh with he
      subst he
      exact ⟨fun k hk => by injection hk with hk; omega, by simp, by simp⟩
    | [s1] =>
      refine ⟨fun uc rest2 hh => StepRes.noConfusion hh, ?_⟩
      intro e hh
      injection hh with he
      subst he
      exact ⟨fun k hk => by injection hk with hk; omega, by simp, by simp⟩
    | s1 :: s2 :: r3 =>
      simp only []
      rw [if_pos hinfo]
      refine ⟨?_, fun e hh => StepRes.noConfusion hh⟩
      intro uc rest2 hh
      injection hh with h1 h2
      subst h2
      simp
      omega
  rw [if_neg h5]
  by_cases h8 : s / 256 % 16 = 8
  · rw [if_pos h8]
    cases rest with
    | nil =>
      refine ⟨fun uc rest2 hh => StepRes.noConfusion hh, ?_⟩
      intro e hh
      injection hh with he
      subst he
      exact ⟨fun k hk => by injection hk with hk; omega, by simp, by simp⟩
    | cons s1 r2 =>
      simp only []
      rw [if_pos hinfo]
      refine ⟨?_, fun e hh => StepRes.noConfusion hh⟩
      intro uc rest2 hh
      injection hh with h1 h2
      subst h2
      simp
  rw [if_neg h8]
  by_cases h9 : s / 256 % 16 = 9
  · rw [if_pos h9]
    match rest with
    | [] =>
      refine ⟨fun uc rest2 hh => StepRes.noConfusion hh, ?_⟩
      intro e hh
      injection hh with he
      subst he
      exact ⟨fun k hk => by injection hk with hk; omega, by simp, by simp⟩
    | [s1] =>
      refine ⟨fun uc rest2 hh => StepRes.noConfusion hh, ?_⟩
      intro e hh
      injection hh with he
      subst he
      exact ⟨fun k hk => by injection hk with hk; omega, by simp, by simp⟩
    | s1 :: s2 :: r3 =>
      simp only []
      rw [if_pos hinfo]
      refine ⟨?_, fun e hh => StepRes.noConfusion hh⟩
      intro uc rest2 hh
      injection hh with h1 h2
      subst h2
      simp
      omega
  rw [if_neg h9]
  refine ⟨fun uc rest2 hh => StepRes.noConfusion hh, ?_⟩
  intro e hh
  injection hh with he
  subst he
  refine ⟨by simp, ?_, by simp⟩
  intro k hk
  injection hk with hk
  subst hk
  refine ⟨h0, h2, h3, h4, h5, h8, h9, ?_⟩
  exact Nat.mod_lt _ (by norm_num)

theorem decodeStep_push_length (s : Nat) (rest : List Nat) (fr fo : Nat)
    (uc : UnwindCode) (rest2 : List Nat)
    (h : decodeStep s rest fr fo = .push uc rest2) : rest2.length ≤ rest.length :=
  (decodeStep_sound s rest fr fo).1 uc rest2 h

theorem decodeStep_fail_class (s : Nat) (rest : List Nat) (fr fo : Nat)
    (e : UnwindCodeParseError) (h : decodeStep s rest fr fo = .fail e) :
    (∀ k, e = .IncompleteOp k → k = 1 ∨ k = 4 ∨ k = 5 ∨ k = 8 ∨ k = 9) ∧
    (∀ k, e = .UnknownOp k →
      k ≠ 0 ∧ k ≠ 2 ∧ k ≠ 3 ∧ k ≠ 4 ∧ k ≠ 5 ∧ k ≠ 8 ∧ k ≠ 9 ∧ k < 16) ∧
    (∀ r, e = .InvalidRegister r → 16 ≤ r) :=
  (decodeStep_sound s rest fr fo).2 e h

theorem parseGo_fuel (fr fo : Nat) :
    ∀ (fuel fuel2 : Nat) (slots : List Nat), slots.length ≤ fuel →
      slots.length ≤ fuel2 → parseGo fr fo fuel slots = parseGo fr fo fuel2 slots := by
  intro fuel
  induction fuel with
  | zero =>
    intro fuel2 slots hlen _
    have : slots = [] := List.length_eq_zero.mp (Nat.le_zero.mp hlen)
    subst this
    cases fuel2 <;> rfl
  | succ fuel ih =>
    intro fuel2 slots hlen hlen2
    cases slots with
    | nil => cases fuel2 <;> rfl
    | cons s rest =>
      cases fuel2 with
      | zero => simp at hlen2
      | succ fuel2 =>
        rw [parseGo.eq_3, parseGo.eq_3]
        cases hd : decodeStep s rest fr fo with
        | fail e => rfl
        | push uc rest2 =>
          have hlr := decodeStep_push_length s rest fr fo uc rest2 hd
          have h1 : rest2.length ≤ fuel := by simp at hlen; omega
          have h2 : rest2.length ≤ fuel2 := by simp at hlen2; omega
          exact congrArg (Except.map fun x => uc :: x) (ih fuel2 rest2 h1 h2)

theorem parseGo_error_class (fr fo : Nat) :
    ∀ (fuel : Nat) (slots : List Nat) (e : UnwindCodeParseError),
      parseGo fr fo fuel slots = .error e →
      (∀ k, e = .IncompleteOp k → k = 1 ∨ k = 4 ∨ k = 5 ∨ k = 8 ∨ k = 9) ∧
      (∀ k, e = .UnknownOp k →
        k ≠ 0 ∧ k ≠ 2 ∧ k ≠ 3 ∧ k ≠ 4 ∧ k ≠ 5 ∧ k ≠ 8 ∧ k ≠ 9 ∧ k < 16) ∧
      (∀ r, e = .InvalidRegister r → 16 ≤ r) := by
  intro fuel
  induction fuel with
  | zero =>
    intro slots e hp
    cases slots with
    | nil => exact Except.noConfusion hp
    | cons s rest => exact Except.noConfusion hp
  | succ fuel ih =>
    intro slots e hp
    cases slots with
    | nil => exact Except.noConfusion hp
    | cons s rest =>
      rw [parseGo.eq_3] at hp
      cases hd : decodeStep s rest fr fo with
      | fail e2 =>
        rw [hd] at hp
        injection hp with hpe
        subst hpe
        exact decodeStep_fail_class s rest fr fo e2 hd
      | push uc rest2 =>
        rw [hd] at hp
        exact ih rest2 e (except_map_eq_error _ _ _ hp)

theorem parse_cons_push (s : Nat) (rest : List Nat) (fr fo : Nat)
    (uc : UnwindCode) (rest2 : List Nat)
    (hd : decodeStep s rest fr fo = .push uc rest2) :
    parse_unwind_ops (s :: rest) fr fo =
      (parse_unwind_ops rest2 fr fo).map (uc :: ·) := by
  unfold parse_unwind_ops
  simp only [List.length_cons]
  rw [parseGo.eq_3, hd]
  exact congrArg (Except.map fun x => uc :: x)
    (parseGo_fuel fr fo rest.length rest2.length rest2
      (decodeStep_push_length s rest fr fo uc rest2 hd) (Nat.le_refl _))

theorem parse_cons_fail (s : Nat) (rest : List Nat) (fr fo : Nat)
    (e : UnwindCodeParseError) (hd : decodeStep s rest fr fo = .fail e) :
    parse_unwind_ops (s :: rest) fr fo = .error e := by
  unfold parse_unwind_ops
  simp only [List.length_cons]
  rw [parseGo.eq_3, hd]

theorem decodeStep_op1info0_cons (x n : Nat) (rest : List Nat) (fr fo : Nat)
    (h1 : x / 256 % 16 = 1) (h2 : x / 4096 % 16 = 0) :
    decodeStep x (n :: rest) fr fo = .push ⟨x % 256, .Alloc (n * 8)⟩ rest := by
  unfold decodeStep
  rw [if_neg (by omega), if_pos ⟨h1, h2⟩]

theorem decodeStep_op1info0_nil (x : Nat) (fr fo : Nat)
    (h1 : x / 256 % 16 = 1) (h2 : x / 4096 % 16 = 0) :
    decodeStep x [] fr fo = .fail (.IncompleteOp 1) := by
  unfold decodeStep
  rw [if_neg (by omega), if_pos ⟨h1, h2⟩]

theorem decodeStep_op1info1_short (x : Nat) (fr fo : Nat)
    (h1 : x / 256 % 16 = 1) (h2 : x / 4096 % 16 = 1) :
    decodeStep x [] fr fo = .fail (.IncompleteOp 1) ∧
    ∀ s1, decodeStep x [s1] fr fo = .fail (.IncompleteOp 1) := by
  constructor
  · unfold decodeStep
    rw [if_neg (by omega), if_neg (by omega), if_pos ⟨h1, h2⟩]
  · intro s1
    unfold decodeStep
    rw [if_neg (by omega), if_neg (by omega), if_pos ⟨h1, h2⟩]

theorem decodeStep_op2 (x : Nat) (rest : List Nat) (fr fo : Nat)
    (h1 : x / 256 % 16 = 2) :
    decodeStep x rest fr fo =
      .push ⟨x % 256, .Alloc (x / 4096 % 16 * 8 + 8)⟩ rest := by
  have w0 : ¬x / 256 % 16 = 0 := by omega
  have w10 : ¬(x / 256 % 16 = 1 ∧ x / 4096 % 16 = 0) := fun hc => by omega
  have w11 : ¬(x / 256 % 16 = 1 ∧ x / 4096 % 16 = 1) := fun hc => by omega
  unfold decodeStep
  rw [if_neg w0, if_neg w10, if_neg w11, if_pos h1]

theorem decodeStep_op3_badfr (x : Nat) (rest : List Nat) (fr fo : Nat)
    (h1 : x / 256 % 16 = 3) (hfr : 16 ≤ fr) :
    decodeStep x rest fr fo = .fail (.InvalidRegister fr) := by
  have w0 : ¬x / 256 % 16 = 0 := by omega
  have w10 : ¬(x / 256 % 16 = 1 ∧ x / 4096 % 16 = 0) := fun hc => by omega
  have w11 : ¬(x / 256 % 16 = 1 ∧ x / 4096 % 16 = 1) := fun hc => by omega
  have w2 : ¬x / 256 % 16 = 2 := by omega
  have wfr : ¬fr < 16 := by omega
  unfold decodeStep
  rw [if_neg w0, if_neg w10, if_neg w11, if_neg w2, if_pos h1, if_neg wfr]

theorem decodeStep_var_nil (x : Nat) (fr fo : Nat) (k : Nat)
    (h1 : x / 256 % 16 = k) (hk : k = 4 ∨ k = 8) :
    decodeStep x [] fr fo = .fail (.IncompleteOp k) := by
  have hne : x / 256 % 16 ≠ 1 ∧ x / 256 % 16 ≠ 2 ∧ x / 256 % 16 ≠ 3 := by omega
  have w0 : ¬x / 256 % 16 = 0 := by omega
  have w10 : ¬(x / 256 % 16 = 1 ∧ x / 4096 % 16 = 0) := fun hc => hne.1 hc.1
  have w11 : ¬(x / 256 % 16 = 1 ∧ x / 4096 % 16 = 1) := fun hc => hne.1 hc.1
  unfold decodeStep
  rcases hk with hk | hk <;> subst hk
  · rw [if_neg w0, if_neg w10, if_neg w11, if_neg hne.2.1, if_neg hne.2.2, if_pos h1]
  · have w4 : ¬x / 256 % 16 = 4 := by omega
    have w5 : ¬x / 256 % 16 = 5 := by omega
    rw [if_neg w0, if_neg w10, if_neg w11, if_neg hne.2.1, if_neg hne.2.2,
      if_neg w4, if_neg w5, if_pos h1]

theorem decodeStep_far_short (x : Nat) (fr fo : Nat) (k : Nat)
    (h1 : x / 256 % 16 = k) (hk : k = 5 ∨ k = 9) :
    decodeStep x [] fr fo = .fail (.IncompleteOp k) ∧
    ∀ s1, decodeStep x [s1] fr fo = .fail (.IncompleteOp k) := by
  have hne : x / 256 % 16 ≠ 1 ∧ x / 256 % 16 ≠ 2 ∧ x / 256 % 16 ≠ 3 ∧
      x / 256 % 16 ≠ 4 := by omega
  have w0 : ¬x / 256 % 16 = 0 := by omega
  have w10 : ¬(x / 256 % 16 = 1 ∧ x / 4096 % 16 = 0) := fun hc => hne.1 hc.1
  have w11 : ¬(x / 256 % 16 = 1 ∧ x / 4096 % 16 = 1) := fun hc => hne.1 hc.1
  rcases hk with hk | hk <;> subst hk
  · refine ⟨?_, fun s1 => ?_⟩ <;>
    · unfold decodeStep
      rw [if_neg w0, if_neg w10, if_neg w11, if_neg hne.2.1, if_neg hne.2.2.1,
        if_neg hne.2.2.2, if_pos h1]
  · have w5 : ¬x / 256 % 16 = 5 := by omega
    have w8 : ¬x / 256 % 16 = 8 := by omega
    refine ⟨?_, fun s1 => ?_⟩ <;>
    · unfold decodeStep
      rw [if_neg w0, if_neg w10, if_neg w11, if_neg hne.2.1, if_neg hne.2.2.1,
        if_neg hne.2.2.2, if_neg w5, if_neg w8, if_pos h1]

theorem decodeStep_unknown (x : Nat) (rest : List Nat) (fr fo : Nat)
    (h1 : x / 256 % 16 ≠ 0) (h2 : x / 256 % 16 ≠ 1) (h3 : x / 256 % 16 ≠ 2)
    (h4 : x / 256 % 16 ≠ 3) (h5 : x / 256 % 16 ≠ 4) (h6 : x / 256 % 16 ≠ 5)
    (h7 : x / 256 % 16 ≠ 8) (h8 : x / 256 % 16 ≠ 9) :
    decodeStep x rest fr fo = .fail (.UnknownOp (x / 256 % 16)) := by
  have w10 : ¬(x / 256 % 16 = 1 ∧ x / 4096 % 16 = 0) := fun hc => h2 hc.1
  have w11 : ¬(x / 256 % 16 = 1 ∧ x / 4096 % 16 = 1) := fun hc => h2 hc.1
  unfold decodeStep
  rw [if_neg h1, if_neg w10, if_neg w11, if_neg h3, if_neg h4, if_neg h5,
    if_neg h6, if_neg h7, if_neg h8]

/-- C9: `parse_unwind_ops` splits every 16-bit slot into (code_offset: low 8
bits, op_code: next 4 bits, op_info: high 4 bits); decodes ALLOC_LARGE with
op_info=0 into an allocation of slot₁ × 8 bytes and ALLOC_SMALL into
op_info × 8 + 8 bytes; fails with `IncompleteOp` exactly when a
variable-length op's 1 or 2 extra slots extend past the end of the slot
sequence (positive instances for every variable-length op, and conversely
every `IncompleteOp` carries a variable-length op code); fails with
`UnknownOp` on an unrecognized op code (positive instance, and every
`UnknownOp` carries an op nibble outside the recognized set); and fails with
`InvalidRegister` on a register encoding outside 0–15 (positive instance for
the SET_FPREG frame register, and every `InvalidRegister` carries an
encoding of at least 16). -/
theorem parse_unwind_ops_claim :
    (∀ x : Nat, x < 65536 →
      x % 256 < 256 ∧ x / 256 % 16 < 16 ∧ x / 4096 % 16 < 16 ∧
      x % 256 + 256 * (x / 256 % 16) + 4096 * (x / 4096 % 16) = x) ∧
    (∀ x n rest fr fo, x / 256 % 16 = 1 → x / 4096 % 16 = 0 →
      parse_unwind_ops (x :: n :: rest) fr fo =
        (parse_unwind_ops rest fr fo).map (⟨x % 256, .Alloc (n * 8)⟩ :: ·)) ∧
    (∀ x rest fr fo, x / 256 % 16 = 2 →
      parse_unwind_ops (x :: rest) fr fo =
        (parse_unwind_ops rest fr fo).map
          (⟨x % 256, .Alloc (x / 4096 % 16 * 8 + 8)⟩ :: ·)) ∧
    (∀ x fr fo, x / 256 % 16 = 1 → x / 4096 % 16 = 0 →
      parse_unwind_ops [x] fr fo = .error (.IncompleteOp 1)) ∧
    (∀ x fr fo, x / 256 % 16 = 1 → x / 4096 % 16 = 1 →
      parse_unwind_ops [x] fr fo = .error (.IncompleteOp 1) ∧
      ∀ s1, parse_unwind_ops [x, s1] fr fo = .error (.IncompleteOp 1)) ∧
    (∀ x fr fo k, x / 256 % 16 = k → k = 4 ∨ k = 8 →
      parse_unwind_ops [x] fr fo = .error (.IncompleteOp k)) ∧
    (∀ x fr fo k, x / 256 % 16 = k → k = 5 ∨ k = 9 →
      parse_unwind_ops [x] fr fo = .error (.IncompleteOp k) ∧
      ∀ s1, parse_unwind_ops [x, s1] fr fo = .error (.IncompleteOp k)) ∧
    (∀ x rest fr fo, x / 256 % 16 = 3 → 16 ≤ fr →
      parse_unwind_ops (x :: rest) fr fo = .error (.InvalidRegister fr)) ∧
    (∀ x rest fr fo, x / 256 % 16 ≠ 0 → x / 256 % 16 ≠ 1 → x / 256 % 16 ≠ 2 →
      x / 256 % 16 ≠ 3 → x / 256 % 16 ≠ 4 → x / 256 % 16 ≠ 5 →
      x / 256 % 16 ≠ 8 → x / 256 % 16 ≠ 9 →
      parse_unwind_ops (x :: rest) fr fo =
        .error (.UnknownOp (x / 256 % 16))) ∧
    (∀ slots fr fo e, parse_unwind_ops slots fr fo = .error e →
      (∀ k, e = .IncompleteOp k → k = 1 ∨ k = 4 ∨ k = 5 ∨ k = 8 ∨ k = 9) ∧
      (∀ k, e = .UnknownOp k →
        k ≠ 0 ∧ k ≠ 2 ∧ k ≠ 3 ∧ k ≠ 4 ∧ k ≠ 5 ∧ k ≠ 8 ∧ k ≠ 9 ∧ k < 16) ∧
      (∀ r, e = .InvalidRegister r → 16 ≤ r)) := by
  refine ⟨?_, ?_, ?_, ?_, ?_, ?_, ?_, ?_, ?_, ?_⟩
  · intro x hx
    refine ⟨by omega, by omega, by omega, by omega⟩
  · intro x n rest fr fo h1 h2
    exact parse_cons_push x (n :: rest) fr fo _ rest
      (decodeStep_op1info0_cons x n rest fr fo h1 h2)
  · intro x rest fr fo h1
    exact parse_cons_push x rest fr fo _ rest (decodeStep_op2 x rest fr fo h1)
  · intro x fr fo h1 h2
    exact parse_cons_fail x [] fr fo _ (decodeStep_op1info0_nil x fr fo h1 h2)
  · intro x fr fo h1 h2
    have h := decodeStep_op1info1_short x fr fo h1 h2
    exact ⟨parse_cons_fail x [] fr fo _ h.1,
      fun s1 => parse_cons_fail x [s1] fr fo _ (h.2 s1)⟩
  · intro x fr fo k h1 hk
    exact parse_cons_fail x [] fr fo _ (decodeStep_var_nil x fr fo k h1 hk)
  · intro x fr fo k h1 hk
    have h := decodeStep_far_short x fr fo k h1 hk
    exact ⟨parse_cons_fail x [] fr fo _ h.1,
      fun s1 => parse_cons_fail x [s1] fr fo _ (h.2 s1)⟩
  · intro x rest fr fo h1 hfr
    exact parse_cons_fail x rest fr fo _ (decodeStep_op3_badfr x rest fr fo h1 hfr)
  · intro x rest fr fo h1 h2 h3 h4 h5 h6 h7 h8
    exact parse_cons_fail x rest fr fo _
      (decodeStep_unknown x rest fr fo h1 h2 h3 h4 h5 h6 h7 h8)
  · intro slots fr fo e hp
    exact parseGo_error_class fr fo slots.length slots e hp

theorem parse_unwind_ops_claim_witness :
    parse_unwind_ops [0x0103, 5] 0 0 = .ok [⟨3, .Alloc 40⟩] ∧
    parse_unwind_ops [0x2207] 0 0 = .ok [⟨7, .Alloc 24⟩] ∧
    parse_unwind_ops [0x0103] 0 0 = .error (.IncompleteOp 1) ∧
    parse_unwind_ops [0x0307] 17 0 = .error (.InvalidRegister 17) ∧
    parse_unwind_ops [0x0607] 0 0 = .error (.UnknownOp 6) ∧
    0x1234 % 256 + 256 * (0x1234 / 256 % 16) + 4096 * (0x1234 / 4096 % 16) =
      0x1234 := by
  have h := parse_unwind_ops_claim
  refine ⟨?_, ?_, ?_, ?_, ?_, ?_⟩
  · rw [h.2.1 0x0103 5 [] 0 0 (by norm_num) (by norm_num)]
    decide
  · rw [h.2.2.1 0x2207 [] 0 0 (by norm_num)]
    decide
  · exact h.2.2.2.1 0x0103 0 0 (by norm_num) (by norm_num)
  · exact h.2.2.2.2.2.2.2.1 0x0307 [] 17 0 (by norm_num) (by norm_num)
  · have hu := h.2.2.2.2.2.2.2.2.1 0x0607 [] 0 0 (by norm_num) (by norm_num)
      (by norm_num) (by norm_num) (by norm_num) (by norm_num) (by norm_num)
      (by norm_num)
    simpa using hu
  · exact (h.1 0x1234 (by norm_num)).2.2.2

/-! ## Process registry and symbol resolution: `kafer-core/src/processes.rs` -/

/-- `enum ExportTarget`: an export resolves to an absolute address
(`Rva(u64)` in the source holds `base + rva`) or forwards by name. -/
inductive ExportTarget : Type where
  | Rva : Nat → ExportTarget
  | Forwarder : String → ExportTarget
deriving DecidableEq, Repr

/-- `ExportTarget::as_rva`. -/
def ExportTarget.as_rva : ExportTarget → Option Nat
  | .Rva a => some a
  | .Forwarder _ => none

/-- `struct Export`: optional name, biased ordinal, target. -/
structure Export : Type where
  name : Option String
  ordinal : Nat
  target : ExportTarget
deriving DecidableEq, Repr

/-- `struct Module`. PDB-derived state is modelled at the pdb2-crate
boundary: `pdb` holds the opened PDB path; `publics` holds the PDB Public
symbols marked "function", as (name, rva mapped through the address map)
pairs in stream order, and is `none` whenever there is no PDB or
`global_symbols`/`address_map` fails; `pdb_info` holds the raw CodeView
record bytes; `dataDirs` is the optional header's 16 DataDirectory entries
as (VirtualAddress, Size). -/
structure Module : Type where
  name : Option String
  address : Nat
  size : Nat
  exports : List Export
  pdb_name : Option String
  pdb_info : Option (List Nat)
  pdb : Option String
  address_map : Bool
  publics : Option (List (String × Nat))
  dataDirs : List (Nat × Nat)
  debug_information : Bool
  module_informations : List Unit
deriving DecidableEq, Repr

/-- `struct Process`. -/
structure Process : Type where
  modules : List Module
  threads : List Nat
deriving DecidableEq, Repr

/-- Hexadecimal digits for `format!("{:X}", _)`. -/
def hexDigits : List Char :=
  "0123456789ABCDEF".toList

/-- Digit loop of uppercase hex formatting, fuelled (the value shrinks by a
factor 16 each step, so fuel equal to the value suffices). -/
def hexUpperGo : Nat → Nat → List Char → List Char
  | 0, _, acc => acc
  | fuel + 1, n, acc =>
    if n = 0 then acc else hexUpperGo fuel (n / 16) (hexDigits.getD (n % 16) '0' :: acc)

/-- `format!("{:X}", n)`: uppercase hexadecimal, no leading zeros. -/
def hexUpper (n : Nat) : String :=
  if n = 0 then "0" else String.mk (hexUpperGo n n [])

/-- `Module::name()`: the stored name, or `module_<HEX_BASE>`. -/
def Module.display_name (m : Module) : String :=
  match m.name with
  | some s => s
  | none => "module_" ++ hexUpper m.address

/-- `Module::contains_address`. -/
def Module.contains_address (m : Module) (address : Nat) : Prop :=
  m.address ≤ address ∧ address < m.address + m.size

instance (m : Module) (address : Nat) : Decidable (m.contains_address address) := by
  unfold Module.contains_address
  infer_instance

/-- `Module::get_data_directory`: the indexed DataDirectory entry, `none`
when its size or virtual address is zero. -/
def Module.get_data_directory (m : Module) (entry : Nat) : Option (Nat × Nat) :=
  let result := m.dataDirs.getD entry (0, 0)
  if result.2 = 0 ∨ result.1 = 0 then none else some result

/-- `Process::get_module_by_address`: first module containing the address. -/
def Process.get_module_by_address (p : Process) (address : Nat) : Option Module :=
  p.modules.find? (fun m => decide (m.contains_address address))

/-- `enum AddressMatch` of `processes.rs`. -/
inductive AddressMatch : Type where
  | None : AddressMatch
  | Export : Export → AddressMatch
  | Public : String → AddressMatch
deriving DecidableEq, Repr

/-- `AddressMatch::is_none`. -/
def AddressMatch.is_none : AddressMatch → Bool
  | .None => true
  | _ => false

/-- `AddressMatch::to_symbol_name`. -/
def AddressMatch.to_symbol_name : AddressMatch → Option String
  | .None => none
  | .Export e =>
    some (match e.name with
      | some n => n
      | none => "Ordinal" ++ toString e.ordinal)
  | .Public s => some s

/-- One step of the PDB Public-symbol scan of `address_to_name`: replace the
running closest match when the symbol's global address is at or below the
target address and not closer than the current match. -/
def closestStep (module_address address : Nat) (acc : AddressMatch × Nat)
    (pr : String × Nat) : AddressMatch × Nat :=
  if module_address + pr.2 ≤ address ∧ (acc.1.is_none ∨ acc.2 ≤ module_address + pr.2) then
    (.Public pr.1, module_address + pr.2)
  else
    acc

/-- The closest-match computation of `Process::address_to_name` inside one
module: seed from the first export in table order whose Rva target is at or
below the address, then fold the PDB Public function symbols in stream
order. -/
def Module.closest_match (m : Module) (address : Nat) : AddressMatch × Nat :=
  let init : AddressMatch × Nat :=
    match m.exports.find? (fun e =>
      match e.target.as_rva with
      | some a => decide (a ≤ address)
      | none => false) with
    | some e => (.Export e, (e.target.as_rva).getD 0)
    | none => (.None, 0)
  match m.publics with
  | none => init
  | some ps => ps.foldl (closestStep m.address address) init

/-- `Process::address_to_name`. -/
def Process.address_to_name (p : Process) (address : Nat) : Option String :=
  match p.get_module_by_address address with
  | none => none
  | some module =>
    match (module.closest_match address).1.to_symbol_name with
    | none => none
    | some symbol_name =>
      let offset := address - (module.closest_match address).2
      some (if offset = 0 then
          module.display_name ++ "!" ++ symbol_name
        else
          module.display_name ++ "!" ++ symbol_name ++ "+0x" ++ hexUpper offset)

theorem closestFold_mono (maddr addr : Nat) :
    ∀ (ps : List (String × Nat)) (acc : AddressMatch × Nat),
      acc.1.is_none = false →
      (ps.foldl (closestStep maddr addr) acc).1.is_none = false ∧
      acc.2 ≤ (ps.foldl (closestStep maddr addr) acc).2 := by
  intro ps
  induction ps with
  | nil => intro acc h; exact ⟨h, Nat.le_refl _⟩
  | cons pr rest ih =>
    intro acc h
    rw [List.foldl_cons]
    unfold closestStep
    split
    · rename_i hcond
      have h2 := ih (.Public pr.1, maddr + pr.2) rfl
      refine ⟨h2.1, ?_⟩
      rcases hcond.2 with hc | hc
      · rw [h] at hc; cases hc
      · exact Nat.le_trans hc h2.2
    · exact ih acc h

theorem closestFold_ge (maddr addr : Nat) :
    ∀ (ps : List (String × Nat)) (acc : AddressMatch × Nat) (nm : String) (rva : Nat),
      (nm, rva) ∈ ps → maddr + rva ≤ addr →
      (ps.foldl (closestStep maddr addr) acc).1.is_none = false ∧
      maddr + rva ≤ (ps.foldl (closestStep maddr addr) acc).2 := by
  intro ps
  induction ps with
  | nil => intro acc nm rva hmem; cases hmem
  | cons pr rest ih =>
    intro acc nm rva hmem hle
    rw [List.foldl_cons]
    rcases List.mem_cons.mp hmem with heq | hmem2
    · subst heq
      unfold closestStep
      split
      · rename_i hcond
        have h2 := closestFold_mono maddr addr rest (.Public nm, maddr + rva) rfl
        exact ⟨h2.1, h2.2⟩
      · rename_i hcond
        rw [not_and_or] at hcond
        rcases hcond with hc | hc
        · exact absurd hle hc
        rw [not_or] at hc
        obtain ⟨hc1, hc2⟩ := hc
        have hnn : acc.1.is_none = false := by
          cases hn : acc.1.is_none
          · rfl
          · exact absurd hn hc1
        have h2 := closestFold_mono maddr addr rest acc hnn
        refine ⟨h2.1, ?_⟩
        have hle2 : maddr + rva ≤ acc.2 := by omega
        exact Nat.le_trans hle2 h2.2
    · exact ih (closestStep maddr addr acc pr) nm rva hmem2 hle

/-- C2 (amended): within the module containing the address,
`address_to_name` seeds its match from the *first* Rva export in
export-table order whose target is at or below the address (not the closest
preceding export), then scans the PDB Public function symbols, each
replacing the match when at or below the address and at least as close; the
final match is therefore at least as close as every Public candidate.  The
result is formatted `<module>!<symbol>` on an exact hit and
`<module>!<symbol>+0x<offset>` otherwise, and is nothing when no module
contains the address or no symbol precedes it. -/
theorem address_to_name_spec :
    (∀ (p : Process) (addr : Nat),
      p.get_module_by_address addr = none → p.address_to_name addr = none) ∧
    (∀ (p : Process) (addr : Nat) (m : Module),
      p.get_module_by_address addr = some m → m.publics = none →
      (m.exports.find? (fun e =>
          match e.target.as_rva with
          | some a => decide (a ≤ addr)
          | none => false) = none →
        p.address_to_name addr = none) ∧
      (∀ e a sym,
        m.exports.find? (fun e2 =>
          match e2.target.as_rva with
          | some a2 => decide (a2 ≤ addr)
          | none => false) = some e →
        e.target.as_rva = some a →
        (AddressMatch.Export e).to_symbol_name = some sym →
        p.address_to_name addr = some (if addr - a = 0 then
            m.display_name ++ "!" ++ sym
          else
            m.display_name ++ "!" ++ sym ++ "+0x" ++ hexUpper (addr - a)))) ∧
    (∀ (p : Process) (addr : Nat) (m : Module) (ps : List (String × Nat)),
      p.get_module_by_address addr = some m → m.publics = some ps →
      ∀ nm rva, (nm, rva) ∈ ps → m.address + rva ≤ addr →
        (m.closest_match addr).1.is_none = false ∧
        m.address + rva ≤ (m.closest_match addr).2) := by
  refine ⟨?_, ?_, ?_⟩
  · intro p addr hm
    simp only [Process.address_to_name, hm]
  · intro p addr m hm hpub
    constructor
    · intro hfind
      simp only [Process.address_to_name, hm, Module.closest_match, hfind, hpub,
        AddressMatch.to_symbol_name]
    · intro e a sym hfind ha hsym
      simp only [Process.address_to_name, hm, Module.closest_match, hfind, hpub, ha,
        Option.getD_some, hsym]
  · intro p addr m ps hm hpub nm rva hmem hle
    unfold Module.closest_match
    rw [hpub]
    exact closestFold_ge m.address addr ps _ nm rva hmem hle

/-- Module of the C2 counterexample: two Rva exports, the farther one first
in export-table order. -/
def cexModule : Module :=
  { name := some "m", address := 0x400000, size := 0x2000,
    exports := [⟨some "Foo", 1, .Rva 0x401000⟩, ⟨some "Bar", 2, .Rva 0x401004⟩],
    pdb_name := none, pdb_info := none, pdb := none, address_map := false,
    publics := none, dataDirs := List.replicate 16 (0, 0),
    debug_information := false, module_informations := [] }

/-- C2 counterexample: with exports Foo at `0x401000` and Bar at `0x401004`
(both preceding `0x401008`, Bar strictly closer), `address_to_name` returns
`m!Foo+0x8` — the first export in table order — not the closest preceding
symbol `m!Bar+0x4` that the claim requires. -/
theorem address_to_name_not_closest :
    Process.address_to_name ⟨[cexModule], []⟩ 0x401008 = some "m!Foo+0x8" ∧
    (⟨some "Bar", 2, .Rva 0x401004⟩ : Export) ∈ cexModule.exports ∧
    (0x401004 : Nat) ≤ 0x401008 ∧ (0x401000 : Nat) < 0x401004 ∧
    some "m!Foo+0x8" ≠ some "m!Bar+0x4" := by
  refine ⟨by decide, by decide, by decide, by decide, by decide⟩

/-- Module of the spec's worked example: single export Foo at RVA `0x1000`
in a module based at `0x400000`. -/
def exampleModule : Module :=
  { name := some "mymod", address := 0x400000, size := 0x2000,
    exports := [⟨some "Foo", 1, .Rva 0x401000⟩],
    pdb_name := none, pdb_info := none, pdb := none, address_map := false,
    publics := none, dataDirs := List.replicate 16 (0, 0),
    debug_information := false, module_informations := [] }

theorem address_to_name_spec_witness :
    Process.address_to_name ⟨[exampleModule], []⟩ 0x401008 = some "mymod!Foo+0x8" := by
  have h := (address_to_name_spec.2.1 ⟨[exampleModule], []⟩ 0x401008 exampleModule
    (by decide) (by decide)).2 ⟨some "Foo", 1, .Rva 0x401000⟩ 0x401000 "Foo"
    (by decide) (by decide) (by decide)
  rw [h]
  decide

/-! ## Stack walking: `src/stack.rs` -/

/-- 64-bit wrapping addition. -/
def add64 (a b : Nat) : Nat := (a + b) % 2 ^ 64

/-- 64-bit wrapping subtraction (for `a < 2 ^ 64`). -/
def sub64 (a b : Nat) : Nat := (a + 2 ^ 64 - b % 2 ^ 64) % 2 ^ 64

/-- `struct RUNTIME_FUNCTION` (`kafer-core/src/stack/ffi.rs`): three u32
fields, 12 bytes. -/
structure RUNTIME_FUNCTION : Type where
  BeginAddress : Nat
  EndAddress : Nat
  UnwindInfo : Nat
deriving DecidableEq, Repr

/-- `read_memory_array::<RUNTIME_FUNCTION>`. -/
def readRuntimeFunctionArray (mem : Memory) (addr count : Nat) : List RUNTIME_FUNCTION :=
  (read_memory_array mem addr count 12).map
    (fun c => ⟨fieldLE c 0 4, fieldLE c 4 4, fieldLE c 8 4⟩)

/-- The loop of Rust `slice::binary_search_by` with the comparator
`func.BeginAddress.cmp(&addr)`; `Less` moves `left` past `mid`, `Greater`
moves `right` to `mid`, `Equal` returns `Ok(mid)`; fuelled (the gap shrinks
every iteration, so fuel `len + 1` suffices). -/
def binarySearchGo (fs : List RUNTIME_FUNCTION) (addr : Nat) :
    Nat → Nat → Nat → Except Nat Nat
  | 0, left, _ => .error left
  | fuel + 1, left, right =>
    if left < right then
      let mid := left + (right - left) / 2
      if (fs.getD mid ⟨0, 0, 0⟩).BeginAddress < addr then
        binarySearchGo fs addr fuel (mid + 1) right
      else if addr < (fs.getD mid ⟨0, 0, 0⟩).BeginAddress then
        binarySearchGo fs addr fuel left mid
      else
        .ok mid
    else
      .error left

/-- `function_list.binary_search_by(|func| func.BeginAddress.cmp(&addr))`. -/
def binarySearchBy (fs : List RUNTIME_FUNCTION) (addr : Nat) : Except Nat Nat :=
  binarySearchGo fs addr (fs.length + 1) 0 fs.length

/-- Whether an optionally-present runtime function covers `addr`
(`func.BeginAddress <= addr && addr < func.EndAddress`, false when absent:
`map_or(false, …)`). -/
def coversOpt (addr : Nat) : Option RUNTIME_FUNCTION → Bool
  | some f => decide (f.BeginAddress ≤ addr ∧ addr < f.EndAddress)
  | none => false

/-- `find_runtime_function` of `src/stack.rs`: binary search on
`BeginAddress`; an exact match returns that entry, an inexact match falls
back to `pos - 1` and then `pos` when the entry contains the RVA. -/
def find_runtime_function (addr : Nat) (function_list : List RUNTIME_FUNCTION) :
    Option RUNTIME_FUNCTION :=
  match binarySearchBy function_list addr with
  | .ok pos => function_list.get? pos
  | .error pos =>
    if 0 < pos ∧ coversOpt addr (function_list.get? (pos - 1)) then
      function_list.get? (pos - 1)
    else if pos < function_list.length ∧ coversOpt addr (function_list.get? pos) then
      function_list.get? pos
    else
      none

/-- `Register::get`, on the 0–15 encodings. -/
def regGet (r : Nat) (c : AlignedContext) : Nat :=
  match r with
  | 0 => c.Rax
  | 1 => c.Rcx
  | 2 => c.Rdx
  | 3 => c.Rbx
  | 4 => c.Rsp
  | 5 => c.Rbp
  | 6 => c.Rsi
  | 7 => c.Rdi
  | 8 => c.R8
  | 9 => c.R9
  | 10 => c.R10
  | 11 => c.R11
  | 12 => c.R12
  | 13 => c.R13
  | 14 => c.R14
  | 15 => c.R15
  | _ => 0

/-- `Register::get_mut` followed by assignment, on the 0–15 encodings. -/
def regSet (r : Nat) (v : Nat) (c : AlignedContext) : AlignedContext :=
  match r with
  | 0 => { c with Rax := v }
  | 1 => { c with Rcx := v }
  | 2 => { c with Rdx := v }
  | 3 => { c with Rbx := v }
  | 4 => { c with Rsp := v }
  | 5 => { c with Rbp := v }
  | 6 => { c with Rsi := v }
  | 7 => { c with Rdi := v }
  | 8 => { c with R8 := v }
  | 9 => { c with R9 := v }
  | 10 => { c with R10 := v }
  | 11 => { c with R11 := v }
  | 12 => { c with R12 := v }
  | 13 => { c with R13 := v }
  | 14 => { c with R14 := v }
  | 15 => { c with R15 := v }
  | _ => c

/-- `UnwindCode::apply`: skip codes whose prologue offset is past
`RIP − func_address` (64-bit wrapping subtraction), otherwise apply the
logical op; `SAVE_XMM128` and `PUSH_MACHFRAME` hit `todo!("unwind op")`. -/
def UnwindCode.apply (uc : UnwindCode) (context : AlignedContext)
    (func_address : Nat) (mem : Memory) : Res AlignedContext :=
  if uc.code_offset > sub64 context.Rip func_address then
    .ok context
  else
    match uc.op with
    | .Alloc size => .ok { context with Rsp := add64 context.Rsp size }
    | .PushNonVolatile reg =>
      match readU64 mem context.Rsp with
      | .ok v =>
        let c2 := regSet reg v context
        .ok { c2 with Rsp := add64 c2.Rsp 8 }
      | .err e => .err e
      | .panic => .panic
    | .SaveNonVolatile reg offset =>
      match readU64 mem (add64 context.Rsp offset) with
      | .ok v => .ok (regSet reg v context)
      | .err e => .err e
      | .panic => .panic
    | .SetFpreg frame_register frame_offset =>
      .ok { context with Rsp := sub64 (regGet frame_register context) frame_offset }
    | .SaveXmm128 _ _ => .panic
    | .PushMachFrame _ => .panic

/-- The `try_fold` applying unwind ops in declaration order. -/
def applyOps : List UnwindCode → AlignedContext → Nat → Memory → Res AlignedContext
  | [], c, _, _ => .ok c
  | op :: rest, c, func_address, mem =>
    match op.apply c func_address mem with
    | .ok c2 => applyOps rest c2 func_address mem
    | .err e => .err e
    | .panic => .panic

/-- `struct StackFrame`. -/
structure StackFrame : Type where
  context : AlignedContext
deriving DecidableEq, Repr

/-- `StackFrame::find_parent`. Internal failures that the source converts by
`.ok()?` become `.ok none` (the walk simply ends); panics (`todo!` on chained
info, unmapped single-record reads) propagate.  The fallback — pop 8 bytes at
RSP into RIP, advance RSP — is taken only when no runtime-function entry is
found; a missing module or missing exception directory returns no parent
directly, and the `RIP = 0` termination check sits only on the unwind-info
path. -/
def StackFrame.find_parent (self : StackFrame) (process : Process) (mem : Memory) :
    Res (Option StackFrame) :=
  match process.get_module_by_address self.context.Rip with
  | none => .ok none
  | some module =>
    match module.get_data_directory 3 with
    | none => .ok none
    | some dd =>
      let functions := readRuntimeFunctionArray mem (module.address + dd.1) (dd.2 / 12)
      match find_runtime_function ((self.context.Rip - module.address) % 2 ^ 32)
          functions with
      | none =>
        match readU64 mem self.context.Rsp with
        | .ok v =>
          .ok (some ⟨{ self.context with
            Rip := v, Rsp := add64 self.context.Rsp 8 }⟩)
        | .err _ => .ok none
        | .panic => .panic
      | some f =>
        match readChunk mem (module.address + f.UnwindInfo) 4 with
        | .err _ => .ok none
        | .panic => .panic
        | .ok info =>
          if (info.getD 0 0 / 8) % 32 &&& 4 = 4 then
            .panic
          else
            match readU16FullArray mem (module.address + f.UnwindInfo + 4)
                (info.getD 2 0) with
            | .error _ => .ok none
            | .ok codes =>
              match parse_unwind_ops codes (info.getD 3 0 % 16)
                  (info.getD 3 0 / 16 % 16 * 16) with
              | .error _ => .ok none
              | .ok unwind_ops =>
                match applyOps unwind_ops self.context
                    (module.address + f.BeginAddress) mem with
                | .err _ => .ok none
                | .panic => .panic
                | .ok ctx =>
                  match readU64 mem ctx.Rsp with
                  | .err _ => .ok none
                  | .panic => .panic
                  | .ok v =>
                    if v = 0 then
                      .ok none
                    else
                      .ok (some ⟨{ ctx with Rip := v, Rsp := add64 ctx.Rsp 8 }⟩)

/-- C3 (amended): in one step of the stack walk, when no module contains RIP
or the containing module has no exception data directory, `find_parent`
returns no parent frame directly (the `?` operator — no fallback); the
fallback — new RIP read as 8 bytes at RSP, RSP advanced by 8 — is applied
exactly when a module and exception directory exist but no runtime-function
entry is found for RIP's RVA, and it returns that parent frame even when the
popped RIP is 0; the RIP = 0 termination check sits on the unwind-info path,
after applying the ops and popping the return address. -/
theorem find_parent_fallback_spec :
    (∀ (frame : StackFrame) (p : Process) (mem : Memory),
      p.get_module_by_address frame.context.Rip = none →
      frame.find_parent p mem = .ok none) ∧
    (∀ (frame : StackFrame) (p : Process) (mem : Memory) (m : Module),
      p.get_module_by_address frame.context.Rip = some m →
      m.get_data_directory 3 = none →
      frame.find_parent p mem = .ok none) ∧
    (∀ (frame : StackFrame) (p : Process) (mem : Memory) (m : Module)
      (dd : Nat × Nat),
      p.get_module_by_address frame.context.Rip = some m →
      m.get_data_directory 3 = some dd →
      find_runtime_function ((frame.context.Rip - m.address) % 2 ^ 32)
        (readRuntimeFunctionArray mem (m.address + dd.1) (dd.2 / 12)) = none →
      (∀ v, readU64 mem frame.context.Rsp = .ok v →
        frame.find_parent p mem = .ok (some ⟨{ frame.context with
          Rip := v, Rsp := add64 frame.context.Rsp 8 }⟩)) ∧
      (readU64 mem frame.context.Rsp = .panic →
        frame.find_parent p mem = .panic)) ∧
    (∀ (frame : StackFrame) (p : Process) (mem : Memory) (m : Module)
      (dd : Nat × Nat) (f : RUNTIME_FUNCTION) (info codes : List Nat)
      (ops : List UnwindCode) (ctx : AlignedContext),
      p.get_module_by_address frame.context.Rip = some m →
      m.get_data_directory 3 = some dd →
      find_runtime_function ((frame.context.Rip - m.address) % 2 ^ 32)
        (readRuntimeFunctionArray mem (m.address + dd.1) (dd.2 / 12)) = some f →
      readChunk mem (m.address + f.UnwindInfo) 4 = .ok info →
      ¬((info.getD 0 0 / 8) % 32 &&& 4 = 4) →
      readU16FullArray mem (m.address + f.UnwindInfo + 4) (info.getD 2 0) =
        .ok codes →
      parse_unwind_ops codes (info.getD 3 0 % 16) (info.getD 3 0 / 16 % 16 * 16) =
        .ok ops →
      applyOps ops frame.context (m.address + f.BeginAddress) mem = .ok ctx →
      readU64 mem ctx.Rsp = .ok 0 →
      frame.find_parent p mem = .ok none) := by
  refine ⟨?_, ?_, ?_, ?_⟩
  · intro frame p mem hm
    unfold StackFrame.find_parent
    rw [hm]
  · intro frame p mem m hm hdd
    unfold StackFrame.find_parent
    rw [hm]
    simp only []
    rw [hdd]
  · intro frame p mem m dd hm hdd hfrf
    constructor
    · intro v hv
      unfold StackFrame.find_parent
      rw [hm]
      simp only []
      rw [hdd]
      simp only []
      rw [hfrf]
      simp only []
      rw [hv]
    · intro hv
      unfold StackFrame.find_parent
      rw [hm]
      simp only []
      rw [hdd]
      simp only []
      rw [hfrf]
      simp only []
      rw [hv]
  · intro frame p mem m dd f info codes ops ctx hm hdd hfrf hinfo hflag hcodes hops
      happly hpop
    unfold StackFrame.find_parent
    rw [hm]
    simp only []
    rw [hdd]
    simp only []
    rw [hfrf]
    simp only []
    rw [hinfo]
    simp only []
    rw [if_neg hflag, hcodes]
    simp only []
    rw [hops]
    simp only []
    rw [happly]
    simp only []
    rw [hpop]
    simp

/-- Memory of the C3 counterexample: a return address `0x5000` readable at
`0x2000`, zeroes readable at `0x3000` (a zero return address), and the
runtime-function table of `cexStackModule` left unmapped. -/
def cexStackMem : Memory := fun a =>
  if 0x2000 ≤ a ∧ a < 0x2008 then [0x00, 0x50, 0, 0, 0, 0, 0, 0].get? (a - 0x2000)
  else if 0x3000 ≤ a ∧ a < 0x3008 then some 0
  else none

/-- Module of the C3 counterexample: exception directory present at RVA
`0x500` (12 bytes), but its table is unmapped in `cexStackMem`, so no
runtime function is found and the fallback runs. -/
def cexStackModule : Module :=
  { name := some "m", address := 0x400000, size := 0x2000,
    exports := [], pdb_name := none, pdb_info := none, pdb := none,
    address_map := false, publics := none,
    dataDirs := (List.replicate 3 (0, 0)) ++ [(0x500, 12)] ++ List.replicate 12 (0, 0),
    debug_information := false, module_informations := [] }

/-- C3 counterexample: with no module containing RIP (empty module list) and
a readable non-zero return address at RSP, `find_parent` returns no parent —
the claim's fallback would produce the frame with RIP `0x5000`; and on the
fallback path a popped RIP of 0 still yields a parent frame — the claim says
the walk terminates there. -/
theorem find_parent_no_module_not_fallback :
    StackFrame.find_parent ⟨{ Rip := 0x1000, Rsp := 0x2000 }⟩ ⟨[], []⟩ cexStackMem =
      .ok none ∧
    readU64 cexStackMem 0x2000 = .ok 0x5000 ∧
    (.ok none : Res (Option StackFrame)) ≠
      .ok (some ⟨{ Rip := 0x5000, Rsp := 0x2008 }⟩) ∧
    StackFrame.find_parent ⟨{ Rip := 0x400150, Rsp := 0x3000 }⟩
      ⟨[cexStackModule], []⟩ cexStackMem =
      .ok (some ⟨{ Rip := 0, Rsp := 0x3008 }⟩) := by
  refine ⟨by decide, by decide, by decide, by decide⟩

/-- Memory of the C3 witness: a one-entry runtime-function table at
`0x400500` covering RVAs `0x100`–`0x200` with unwind info at RVA `0x600`
(version 1, no flags, no codes), and a zero quadword at `0x3000`. -/
def unwindMem : Memory := fun a =>
  if 0x400500 ≤ a ∧ a < 0x40050C then
    [0x00, 0x01, 0x00, 0x00, 0x00, 0x02, 0x00, 0x00, 0x00, 0x06, 0x00, 0x00].get?
      (a - 0x400500)
  else if 0x400600 ≤ a ∧ a < 0x400604 then [1, 0, 0, 0].get? (a - 0x400600)
  else if 0x3000 ≤ a ∧ a < 0x3008 then some 0
  else none

/-- Module of the C3 witness: exception directory at RVA `0x500`, one
runtime-function entry. -/
def unwindModule : Module :=
  { name := some "m", address := 0x400000, size := 0x2000,
    exports := [], pdb_name := none, pdb_info := none, pdb := none,
    address_map := false, publics := none,
    dataDirs := (List.replicate 3 (0, 0)) ++ [(0x500, 12)] ++ List.replicate 12 (0, 0),
    debug_information := false, module_informations := [] }

theorem find_parent_fallback_spec_witness :
    StackFrame.find_parent ⟨{ Rip := 0x1000, Rsp := 0x2000 }⟩ ⟨[], []⟩ unwindMem =
      .ok none ∧
    StackFrame.find_parent ⟨{ Rip := 0x400150, Rsp := 0x3000 }⟩
      ⟨[unwindModule], []⟩ unwindMem = .ok none := by
  constructor
  · exact find_parent_fallback_spec.1 ⟨{ Rip := 0x1000, Rsp := 0x2000 }⟩ ⟨[], []⟩
      unwindMem (by decide)
  · exact find_parent_fallback_spec.2.2.2 ⟨{ Rip := 0x400150, Rsp := 0x3000 }⟩
      ⟨[unwindModule], []⟩ unwindMem unwindModule (0x500, 12) ⟨0x100, 0x200, 0x600⟩
      [1, 0, 0, 0] [] [] { Rip := 0x400150, Rsp := 0x3000 }
      (by decide) (by decide) (by decide) (by decide) (by decide) (by decide)
      (by decide) (by decide) (by decide)

/-! ## Export parsing and module introspection: `kafer-core/src/processes.rs` -/

/-- Lift a `Result` into the panic-aware outcome type. -/
def exceptToRes {α : Type} : Except Err α → Res α
  | .ok a => .ok a
  | .error e => .err e

/-- The module-name fallback of `read_exports`: when the directory's `Name`
field is set and the builder has no name yet, read it (NUL-terminated,
at most 512 bytes). -/
def exportDirName (selfName : Option String) (base : Nat) (dir : List Nat)
    (mem : Memory) : Res (Option String) :=
  if fieldLE dir 12 4 ≠ 0 ∧ selfName = none then
    (read_memory_string mem (base + fieldLE dir 12 4) 512 false).map some
  else
    .ok selfName

/-- The export-name lookup for unbiased ordinal `i`: search the ordinal
array for `i as u16`; when found, the parallel name RVA gives the name
(at most 4096 bytes). -/
def exportNameAt (mem : Memory) (base : Nat) (ordinal_array name_array : List Nat)
    (i : Nat) : Res (Option String) :=
  match ordinal_array.findIdx? (fun o => o == i % 2 ^ 16) with
  | none => .ok none
  | some idx =>
    (read_memory_string mem (add64 base (name_array.getD idx 0)) 4096 false).map some

/-- The per-function loop of `read_exports`: for unbiased ordinal `i` with
function RVA `fnRva`, the exposed ordinal is `Base + i` (u32), the target is
`base + fnRva` (u64); a target inside `[start, endd)` is a forwarder whose
NUL-terminated string (at most 4096 bytes) is read at the target, otherwise
an Rva export with that target. -/
def exportsLoop (mem : Memory) (base start endd dirBase : Nat)
    (ordinal_array name_array : List Nat) : Nat → List Nat → Res (List Export)
  | _, [] => .ok []
  | i, fnRva :: restRvas =>
    match exportNameAt mem base ordinal_array name_array i with
    | .err e => .err e
    | .panic => .panic
    | .ok export_name =>
      if start ≤ add64 base fnRva ∧ add64 base fnRva < endd then
        match read_memory_string mem (add64 base fnRva) 4096 false with
        | .err e => .err e
        | .panic => .panic
        | .ok fwd =>
          (exportsLoop mem base start endd dirBase ordinal_array name_array
            (i + 1) restRvas).map
            (⟨export_name, (dirBase + i) % 2 ^ 32, .Forwarder fwd⟩ :: ·)
      else
        (exportsLoop mem base start endd dirBase ordinal_array name_array
          (i + 1) restRvas).map
          (⟨export_name, (dirBase + i) % 2 ^ 32, .Rva (add64 base fnRva)⟩ :: ·)

/-- `ModuleBuilder::read_exports`: nothing to do when the export directory's
virtual address is zero; otherwise read the `IMAGE_EXPORT_DIRECTORY` (40
bytes, fields `Name` at 12, `Base` at 16, `NumberOfFunctions` at 20,
`NumberOfNames` at 24, `AddressOfFunctions` at 28, `AddressOfNames` at 32,
`AddressOfNameOrdinals` at 36), the module-name fallback, the three exactly
sized parallel tables, and run the per-function loop.  Returns the possibly
updated builder name and the exports. -/
def read_exports (selfName : Option String) (base : Nat) (dd : Nat × Nat)
    (mem : Memory) : Res (Option String × List Export) :=
  if dd.1 = 0 then
    .ok (selfName, [])
  else
    match readChunk mem (base + dd.1) 40 with
    | .err e => .err e
    | .panic => .panic
    | .ok dir =>
      match exportDirName selfName base dir mem with
      | .err e => .err e
      | .panic => .panic
      | .ok name2 =>
        match exceptToRes (readU16FullArray mem (base + fieldLE dir 36 4)
            (fieldLE dir 24 4)) with
        | .err e => .err e
        | .panic => .panic
        | .ok ordinal_array =>
          match exceptToRes (readU32FullArray mem (base + fieldLE dir 32 4)
              (fieldLE dir 24 4)) with
          | .err e => .err e
          | .panic => .panic
          | .ok name_array =>
            match exceptToRes (readU32FullArray mem (base + fieldLE dir 28 4)
                (fieldLE dir 20 4)) with
            | .err e => .err e
            | .panic => .panic
            | .ok address_table =>
              (exportsLoop mem base (base + dd.1) (base + dd.1 + dd.2)
                (fieldLE dir 16 4) ordinal_array name_array 0 address_table).map
                (fun exps => (name2, exps))

/-- The pdb2-crate and filesystem boundary, as the spec's abstract
interfaces: whether a CodeView-referenced PDB path opens, whether its
address map resolves, its Public function symbols for `address_to_name`,
and the `build()`-time per-compilation-unit module infos. -/
structure PdbEnv : Type where
  openPdb : String → Bool
  addressMapOk : String → Bool
  publics : String → Option (List (String × Nat))
  debugInfos : String → Except Err (List Unit)

/-- Mutable state of `ModuleBuilder` touched by `read_debug_info`. -/
structure DebugState : Type where
  pdb_name : Option String
  pdb_info : Option (List Nat)
  pdb : Option String
  address_map : Bool
deriving DecidableEq, Repr

/-- The entry loop of `read_debug_info` over up to 20 `IMAGE_DEBUG_DIRECTORY`
records (28 bytes each, `Type` at 12, `SizeOfData` at 16, `AddressOfRawData`
at 20): each CODEVIEW entry (type 2) reads the 24-byte `PdbInfo` record at
`AddressOfRawData + base` and the NUL-terminated path after it bounded by
`SizeOfData - sizeof(PdbInfo)` (wrapping usize subtraction), then retains the
PDB when the file opens. -/
def debugInfoLoop (env : PdbEnv) (mem : Memory) (base va : Nat) :
    Nat → Nat → DebugState → Res DebugState
  | 0, _, st => .ok st
  | k + 1, idx, st =>
    match readChunk mem (base + va + idx * 28) 28 with
    | .err e => .err e
    | .panic => .panic
    | .ok dir =>
      if fieldLE dir 12 4 = 2 then
        match readChunk mem (add64 (fieldLE dir 20 4) base) 24 with
        | .err e => .err e
        | .panic => .panic
        | .ok pinfo =>
          match read_memory_string mem (add64 (fieldLE dir 20 4) base + 24)
              (sub64 (fieldLE dir 16 4) 24) false with
          | .err e => .err e
          | .panic => .panic
          | .ok pname =>
            debugInfoLoop env mem base va k (idx + 1)
              { pdb_name := some pname, pdb_info := some pinfo,
                pdb := if env.openPdb pname then some pname else st.pdb,
                address_map := if env.openPdb pname then env.addressMapOk pname
                  else st.address_map }
      else
        debugInfoLoop env mem base va k (idx + 1) st

/-- `ModuleBuilder::read_debug_info`: nothing when `DataDirectory[DEBUG]` is
empty; otherwise iterate `min(Size / 28, 20)` entries. -/
def read_debug_info (env : PdbEnv) (mem : Memory) (base : Nat) (dd : Nat × Nat) :
    Res DebugState :=
  if dd.1 = 0 then
    .ok ⟨none, none, none, false⟩
  else
    debugInfoLoop env mem base dd.1 (min (dd.2 / 28) 20) 0 ⟨none, none, none, false⟩

/-- Sign extension of a u32 value reinterpreted as i32 into u64
(`dos_header.e_lfanew as u64`). -/
def sext32 (v : Nat) : Nat :=
  if v < 2 ^ 31 then v else 2 ^ 64 - 2 ^ 32 + v

/-- `Module::from_memory_view`: read the 64-byte DOS header at `address`
(`e_lfanew` is its trailing i32), follow it to the 264-byte
`IMAGE_NT_HEADERS64` (`FileHeader.Machine` u16 at offset 4, `SizeOfImage`
u32 at offset 80, the 16 `DataDirectory` (VirtualAddress, Size) pairs from
offset 136); a machine other than AMD64 (0x8664) hits
`todo!("Throw error!")` — a panic; otherwise run `read_debug_info`
(directory 6), `read_exports` (directory 0) and `build()`. -/
def Module.from_memory_view (env : PdbEnv) (address : Nat) (name : Option String)
    (mem : Memory) : Res Module :=
  match readChunk mem address 64 with
  | .err e => .err e
  | .panic => .panic
  | .ok dos =>
    match readChunk mem (add64 address (sext32 (fieldLE dos 60 4))) 264 with
    | .err e => .err e
    | .panic => .panic
    | .ok pe =>
      if fieldLE pe 4 2 ≠ 0x8664 then
        .panic
      else
        let dataDirs := (List.range 16).map
          (fun i => (fieldLE pe (136 + 8 * i) 4, fieldLE pe (136 + 8 * i + 4) 4))
        match read_debug_info env mem address (dataDirs.getD 6 (0, 0)) with
        | .err e => .err e
        | .panic => .panic
        | .ok dbg =>
          match read_exports name address (dataDirs.getD 0 (0, 0)) mem with
          | .err e => .err e
          | .panic => .panic
          | .ok pair =>
            match dbg.pdb with
            | none =>
              .ok ({ name := pair.1, address := address, size := fieldLE pe 80 4,
                     exports := pair.2, pdb_name := dbg.pdb_name,
                     pdb_info := dbg.pdb_info, pdb := none,
                     address_map := dbg.address_map, publics := none,
                     dataDirs := dataDirs, debug_information := false,
                     module_informations := [] })
            | some p =>
              match exceptToRes (env.debugInfos p) with
              | .err e => .err e
              | .panic => .panic
              | .ok infos =>
                .ok ({ name := pair.1, address := address, size := fieldLE pe 80 4,
                       exports := pair.2, pdb_name := dbg.pdb_name,
                       pdb_info := dbg.pdb_info, pdb := some p,
                       address_map := dbg.address_map, publics := env.publics p,
                       dataDirs := dataDirs, debug_information := true,
                       module_informations := infos })

theorem res_map_eq_ok {α β : Type} (f : α → β) (x : Res α) (v : β)
    (h : x.map f = .ok v) : ∃ a, x = .ok a ∧ v = f a := by
  cases x with
  | ok a =>
    refine ⟨a, rfl, ?_⟩
    injection h with h2
    exact h2.symm
  | err e => exact Res.noConfusion h
  | panic => exact Res.noConfusion h

theorem exportsLoop_spec (mem : Memory) (base start endd dirBase : Nat)
    (ordinal_array name_array : List Nat) :
    ∀ (rvas : List Nat) (i0 : Nat) (exps : List Export),
      exportsLoop mem base start endd dirBase ordinal_array name_array i0 rvas =
        .ok exps →
      exps.length = rvas.length ∧
      ∀ j e, exps.get? j = some e →
        ∃ rva, rvas.get? j = some rva ∧
          e.ordinal = (dirBase + (i0 + j)) % 2 ^ 32 ∧
          ((start ≤ add64 base rva ∧ add64 base rva < endd) →
            ∃ s, read_memory_string mem (add64 base rva) 4096 false = .ok s ∧
              e.target = .Forwarder s) ∧
          (¬(start ≤ add64 base rva ∧ add64 base rva < endd) →
            e.target = .Rva (add64 base rva)) := by
  intro rvas
  induction rvas with
  | nil =>
    intro i0 exps hp
    injection hp with hp2
    subst hp2
    refine ⟨rfl, ?_⟩
    intro j e hj
    simp at hj
  | cons fnRva restRvas ih =>
    intro i0 exps hp
    rw [exportsLoop.eq_2] at hp
    cases hn : exportNameAt mem base ordinal_array name_array i0 with
    | err e2 => rw [hn] at hp; exact Res.noConfusion hp
    | panic => rw [hn] at hp; exact Res.noConfusion hp
    | ok export_name =>
      rw [hn] at hp
      simp only [] at hp
      by_cases hcls : start ≤ add64 base fnRva ∧ add64 base fnRva < endd
      · rw [if_pos hcls] at hp
        cases hf : read_memory_string mem (add64 base fnRva) 4096 false with
        | err e2 => rw [hf] at hp; exact Res.noConfusion hp
        | panic => rw [hf] at hp; exact Res.noConfusion hp
        | ok fwd =>
          rw [hf] at hp
          simp only [] at hp
          obtain ⟨rest2, hrest2, hexps⟩ := res_map_eq_ok _ _ _ hp
          subst hexps
          obtain ⟨ihlen, ihspec⟩ := ih (i0 + 1) rest2 hrest2
          refine ⟨by simp [ihlen], ?_⟩
          intro j e hj
          cases j with
          | zero =>
            simp only [List.get?_cons_zero] at hj
            injection hj with hj2
            subst hj2
            refine ⟨fnRva, by simp, by simp, ?_, ?_⟩
            · intro _
              exact ⟨fwd, hf, rfl⟩
            · intro hc
              exact absurd hcls hc
          | succ j =>
            simp only [List.get?_cons_succ] at hj
            obtain ⟨rva, hrva, hord, hfwd, hrvat⟩ := ihspec j e hj
            refine ⟨rva, by simpa using hrva, ?_, hfwd, hrvat⟩
            have harith : i0 + 1 + j = i0 + (j + 1) := by omega
            rw [harith] at hord
            exact hord
      · rw [if_neg hcls] at hp
        obtain ⟨rest2, hrest2, hexps⟩ := res_map_eq_ok _ _ _ hp
        subst hexps
        obtain ⟨ihlen, ihspec⟩ := ih (i0 + 1) rest2 hrest2
        refine ⟨by simp [ihlen], ?_⟩
        intro j e hj
        cases j with
        | zero =>
          simp only [List.get?_cons_zero] at hj
          injection hj with hj2
          subst hj2
          refine ⟨fnRva, by simp, by simp, ?_, ?_⟩
          · intro hc
            exact absurd hc hcls
          · intro _
            rfl
        | succ j =>
          simp only [List.get?_cons_succ] at hj
          obtain ⟨rva, hrva, hord, hfwd, hrvat⟩ := ihspec j e hj
          refine ⟨rva, by simpa using hrva, ?_, hfwd, hrvat⟩
          have harith : i0 + 1 + j = i0 + (j + 1) := by omega
          rw [harith] at hord
          exact hord

/-- C7: during export parsing, for every function index `j` with computed
target `base + rva` (64-bit), the export is classified as a Forwarder — with
the NUL-terminated forwarding string read at the target, at most 4096
bytes — iff the target lies within `[export_table_start, export_table_end)`;
otherwise it is an Rva export with that target.  The exposed ordinal is
`Base + j` (u32). -/
theorem read_exports_claim (selfName : Option String) (base : Nat) (dd : Nat × Nat)
    (mem : Memory) (nm : Option String) (exps : List Export) (dir : List Nat)
    (address_table : List Nat)
    (hp : read_exports selfName base dd mem = .ok (nm, exps))
    (hdd1 : dd.1 ≠ 0)
    (hchunk : readChunk mem (base + dd.1) 40 = .ok dir)
    (htab : readU32FullArray mem (base + fieldLE dir 28 4) (fieldLE dir 20 4) =
      .ok address_table) :
    exps.length = address_table.length ∧
    ∀ j e, exps.get? j = some e →
      ∃ rva, address_table.get? j = some rva ∧
        e.ordinal = (fieldLE dir 16 4 + j) % 2 ^ 32 ∧
        ((base + dd.1 ≤ add64 base rva ∧ add64 base rva < base + dd.1 + dd.2) →
          ∃ s, read_memory_string mem (add64 base rva) 4096 false = .ok s ∧
            e.target = .Forwarder s) ∧
        (¬(base + dd.1 ≤ add64 base rva ∧ add64 base rva < base + dd.1 + dd.2) →
          e.target = .Rva (add64 base rva)) := by
  unfold read_exports at hp
  rw [if_neg hdd1, hchunk] at hp
  simp only [] at hp
  cases hn : exportDirName selfName base dir mem with
  | err e2 => rw [hn] at hp; exact Res.noConfusion hp
  | panic => rw [hn] at hp; exact Res.noConfusion hp
  | ok name2 =>
    rw [hn] at hp
    simp only [] at hp
    cases ho : readU16FullArray mem (base + fieldLE dir 36 4) (fieldLE dir 24 4) with
    | error e2 => rw [ho] at hp; simp only [exceptToRes] at hp; exact Res.noConfusion hp
    | ok ordinal_array =>
      rw [ho] at hp
      simp only [exceptToRes] at hp
      cases ha : readU32FullArray mem (base + fieldLE dir 32 4) (fieldLE dir 24 4) with
      | error e2 => rw [ha] at hp; simp only [exceptToRes] at hp; exact Res.noConfusion hp
      | ok name_array =>
        rw [ha] at hp
        simp only [exceptToRes] at hp
        rw [htab] at hp
        simp only [exceptToRes] at hp
        obtain ⟨exps0, hloop, hpair⟩ := res_map_eq_ok _ _ _ hp
        have hexps : exps = exps0 := congrArg Prod.snd hpair
        rw [← hexps] at hloop
        obtain ⟨hlen, hspec⟩ := exportsLoop_spec mem base (base + dd.1)
          (base + dd.1 + dd.2) (fieldLE dir 16 4) ordinal_array name_array
          address_table 0 exps hloop
        refine ⟨hlen, ?_⟩
        intro j e hj
        obtain ⟨rva, hrva, hord, hfwd, hrvat⟩ := hspec j e hj
        refine ⟨rva, hrva, ?_, hfwd, hrvat⟩
        simpa using hord

/-- Memory image of the C7 witness: an export directory at `0x401000` in a
module based at `0x400000`, with two exports — one whose target `0x401080`
falls inside the directory range (a forwarder to the string `A!B` stored
there) and one with target `0x402000`, outside (an Rva export) — and one
named entry `Foo` for unbiased ordinal 0. -/
def exportMem : Memory :=
  memBlob 0x401000
    (List.replicate 16 0 ++
     [1, 0, 0, 0,
      2, 0, 0, 0,
      1, 0, 0, 0,
      0x40, 0x10, 0, 0,
      0x50, 0x10, 0, 0,
      0x60, 0x10, 0, 0] ++
     List.replicate 24 0 ++
     [0x80, 0x10, 0, 0, 0x00, 0x20, 0, 0] ++
     List.replicate 8 0 ++
     [0x90, 0x10, 0, 0] ++
     List.replicate 12 0 ++
     [0, 0] ++
     List.replicate 30 0 ++
     [0x41, 0x21, 0x42, 0] ++
     List.replicate 12 0 ++
     [0x46, 0x6F, 0x6F, 0] ++
     List.replicate 12 0)

/-- The 40-byte `IMAGE_EXPORT_DIRECTORY` of `exportMem`. -/
def exportDirChunk : List Nat :=
  List.replicate 16 0 ++
  [1, 0, 0, 0,
   2, 0, 0, 0,
   1, 0, 0, 0,
   0x40, 0x10, 0, 0,
   0x50, 0x10, 0, 0,
   0x60, 0x10, 0, 0]

set_option maxRecDepth 100000 in
theorem read_exports_claim_witness :
    ∃ rva, ([0x1080, 0x2000] : List Nat).get? 1 = some rva ∧
      (⟨none, 2, .Rva 0x402000⟩ : Export).ordinal =
        (fieldLE exportDirChunk 16 4 + 1) % 2 ^ 32 ∧
      ((0x400000 + (0x1000, 0x100).1 ≤ add64 0x400000 rva ∧
        add64 0x400000 rva < 0x400000 + (0x1000, 0x100).1 + (0x1000, 0x100).2) →
        ∃ s, read_memory_string exportMem (add64 0x400000 rva) 4096 false = .ok s ∧
          (⟨none, 2, .Rva 0x402000⟩ : Export).target = .Forwarder s) ∧
      (¬(0x400000 + (0x1000, 0x100).1 ≤ add64 0x400000 rva ∧
        add64 0x400000 rva < 0x400000 + (0x1000, 0x100).1 + (0x1000, 0x100).2) →
        (⟨none, 2, .Rva 0x402000⟩ : Export).target = .Rva (add64 0x400000 rva)) := by
  have h := read_exports_claim (some "m") 0x400000 (0x1000, 0x100) exportMem
    (some "m") [⟨some "Foo", 1, .Forwarder "A!B"⟩, ⟨none, 2, .Rva 0x402000⟩]
    exportDirChunk [0x1080, 0x2000]
    (by decide) (by decide) (by decide) (by decide)
  exact h.2 1 ⟨none, 2, .Rva 0x402000⟩ (by decide)

/-- Trivial pdb2/filesystem environment: no PDB ever opens. -/
def trivEnv : PdbEnv :=
  ⟨fun _ => false, fun _ => false, fun _ => none, fun _ => .ok []⟩

/-- Memory image whose PE file header declares machine 0x014C (i386): a
64-byte DOS header with `e_lfanew = 64`, followed by 264 NT-header bytes
whose `Machine` field (offset 4) is `0x4C 0x01`. -/
def badMachineMem : Memory :=
  memBlob 0
    (List.replicate 60 0 ++ [64, 0, 0, 0] ++
     [0, 0, 0, 0, 0x4C, 0x01] ++ List.replicate 258 0)

set_option maxRecDepth 100000 in
/-- C4: the claim says `from_memory_view` fails with `UnsupportedMachine`,
returning that error to the caller.  The code instead hits
`todo!("Throw error!")`: at a PE image whose machine field is 0x014C the
embedded function panics, and it returns no error value at all (the `Err`
taxonomy of `src/error.rs` has no `UnsupportedMachine` variant). -/
theorem from_memory_view_machine_panic :
    Module.from_memory_view trivEnv 0 none badMachineMem = .panic ∧
    (∀ e : Err, Module.from_memory_view trivEnv 0 none badMachineMem ≠ .err e) ∧
    fieldLE (List.replicate 4 0 ++ [0x4C, 0x01]) 4 2 = 0x014C ∧
    (0x014C : Nat) ≠ 0x8664 := by
  refine ⟨by decide, ?_, by decide, by decide⟩
  intro e h
  rw [show Module.from_memory_view trivEnv 0 none badMachineMem = .panic
    from by decide] at h
  exact Res.noConfusion h

end Kafer
